import Mathlib

/-!
# Verification of the workspace cloud-sync engine

Shallow embedding of the repository's sync subsystem (src/sync.js, the
serializer and state helpers of src/ui.js, and the auth guards of
src/auth.js), together with proofs settling the specification claims.

JavaScript strings are modelled as lists of characters (`JStr`); JS objects
used as string-keyed maps are modelled as insertion-ordered association
lists with unique keys.  Asynchronous functions are modelled as pure
functions from an environment (describing the outcome of every network
request of the tick, plus the clock and login state) and the mutable state
to a final state, a trace of emitted UI/network effects (`Act`), and an
`Except` result whose `error` case models an exception propagating out of
the async function (an unhandled promise rejection).
-/

/-- A JavaScript string, modelled as its list of characters. -/
abbrev JStr := List Char

/-- Coerce a Lean string literal to the `JStr` model. -/
def jstr (s : String) : JStr := s.data

/-- Three-way codepoint comparison of characters, as an integer sign. -/
def charCmp (a b : Char) : Int :=
  if a.toNat < b.toNat then -1 else if b.toNat < a.toNat then 1 else 0

/-- Lexicographic codepoint comparison of strings (the ordering used by the
JavaScript default `Array.prototype.sort()` on strings; JS compares UTF-16
code units, which agrees with codepoints outside surrogate pairs). -/
def jstrCmp : JStr → JStr → Int
  | [], [] => 0
  | [], _ :: _ => -1
  | _ :: _, [] => 1
  | a :: as, b :: bs => if a = b then jstrCmp as bs else charCmp a b

/-- Strict codepoint-lexicographic order on modelled JS strings. -/
def jstrLt (a b : JStr) : Bool := jstrCmp a b < 0

/-- Insert `x` into `l` before the first element strictly greater than it
(`lt x y`), after all elements it does not strictly precede.  This is the
insertion step of a stable sort: an element inserted later ends up after
the equal elements already present, as in JS `Array.prototype.sort`. -/
def insertStable (lt : α → α → Bool) (x : α) : List α → List α
  | [] => [x]
  | y :: ys => if lt x y then x :: y :: ys else y :: insertStable lt x ys

/-- Stable sort by successive insertion, processing the input left to
right; models JS `Array.prototype.sort` with a consistent comparator
(`lt a b` standing for `comparator a b < 0`). -/
def stableSort (lt : α → α → Bool) (l : List α) : List α :=
  l.foldl (fun acc x => insertStable lt x acc) []

/-! ## JavaScript string helpers used by the serializer and hasher -/

/-- The characters matched by the JS regexp class `\s` (ECMAScript
WhiteSpace ∪ LineTerminator). -/
def isJsWs (c : Char) : Bool :=
  c == ' ' || c == '\t' || c == '\n' || c == '\x0b' || c == '\x0c' || c == '\r' ||
  c.toNat == 0xA0 || c.toNat == 0x1680 ||
  (0x2000 <= c.toNat && c.toNat <= 0x200A) ||
  c.toNat == 0x2028 || c.toNat == 0x2029 || c.toNat == 0x202F ||
  c.toNat == 0x205F || c.toNat == 0x3000 || c.toNat == 0xFEFF

/-- `s.replace(/\s+/g, "_")`: every maximal run of whitespace becomes one
underscore.  `prevWs` records whether the previous character belonged to a
whitespace run already replaced. -/
def collapseWsGo (prevWs : Bool) : JStr → JStr
  | [] => []
  | c :: rest =>
    if isJsWs c then
      if prevWs then collapseWsGo true rest else '_' :: collapseWsGo true rest
    else c :: collapseWsGo false rest

/-- `s.replace(/\s+/g, "_")`. -/
def collapseWs (s : JStr) : JStr := collapseWsGo false s

/-- `s.replace(/_/g, " ")`. -/
def underscoresToSpaces (s : JStr) : JStr :=
  s.map (fun c => if c = '_' then ' ' else c)

/-- `s.replace(/\.[^.]+$/, "")`: drop a final extension — the last dot and
what follows it — when the string ends in a dot followed by one or more
non-dot characters. -/
def stripExt (s : JStr) : JStr :=
  let revTail := s.reverse.takeWhile (fun c => c ≠ '.')
  if 0 < revTail.length ∧ revTail.length < s.length then
    (s.reverse.drop (revTail.length + 1)).reverse
  else s

/-- `s.endsWith(suffix)`. -/
def jsEndsWith (suffix s : JStr) : Bool := suffix.isSuffixOf s

/-- `s.split(sep)` specialised to a three-character separator (the source
only splits on `"___"`): scan left to right, cutting at each leftmost,
non-overlapping occurrence of `a,b,c`; `cur` holds the characters of the
current piece in reverse. -/
def split3Go (a b c : Char) (cur : JStr) : JStr → List JStr
  | [] => [cur.reverse]
  | [x] => [(x :: cur).reverse]
  | [x, y] => [(y :: x :: cur).reverse]
  | x :: y :: z :: rest =>
    if x = a ∧ y = b ∧ z = c then cur.reverse :: split3Go a b c [] rest
    else split3Go a b c (x :: cur) (y :: z :: rest)

/-- `filename.split("___")` (src/ui.js line 1479). -/
def splitSep (s : JStr) : List JStr := split3Go '_' '_' '_' [] s

/-- `array.join(sep)`. -/
def joinSep (sep : JStr) : List JStr → JStr
  | [] => []
  | [x] => x
  | x :: y :: rest => x ++ sep ++ joinSep sep (y :: rest)

/-! ## Workspace data model (src/ui.js) -/

/-- A file of the in-memory workspace: identifier, display title,
content-kind tag (`type` in the source, a free string) and text body. -/
structure WFile where
  id : JStr
  title : JStr
  type : JStr
  content : JStr
deriving DecidableEq

/-- A folder ("subject") of the workspace. -/
structure Subject where
  id : JStr
  title : JStr
  isOpen : Bool
  files : List WFile
deriving DecidableEq

/-- The serializer's reserved separator `"___"` between folder title and
file title in a flattened path. -/
def SEP : JStr := jstr "___"

/-- The extension derived from a file's content-kind tag in
`flattenWorkspace` (src/ui.js lines 1452-1459). -/
def extOf (t : JStr) : JStr :=
  if t = jstr "md" ∨ t = jstr "markdown" then jstr ".md"
  else if t = jstr "puml" ∨ t = jstr "plantuml" then jstr ".puml"
  else jstr ".txt"

/-- `flattenWorkspace()` (src/ui.js lines 1448-1472): for every file of
every subject, emit the path
`sanitizedSubjectTitle ++ "___" ++ sanitizedFileTitle ++ ext` paired with
the file's content (`file.content || ""` equals the content string, the
empty string staying empty). -/
def flattenWorkspace (subjects : List Subject) : List (JStr × JStr) :=
  subjects.flatMap (fun subject =>
    subject.files.map (fun file =>
      (collapseWs subject.title ++ SEP ++ collapseWs file.title ++ extOf file.type,
       file.content)))

/-- Assignment `obj[k] = v` on a JS object modelled as an insertion-ordered
association list: an existing key keeps its position and gets the new
value, a new key is appended. -/
def jsObjInsert (m : List (JStr × α)) (k : JStr) (v : α) : List (JStr × α) :=
  if m.any (fun p => p.1 == k) then
    m.map (fun p => if p.1 == k then (k, v) else p)
  else m ++ [(k, v)]

/-- The `gistFiles` object built from the flatten output in
`saveWorkspaceToGist` (src/sync.js lines 389-392), and likewise the shape
`rebuildWorkspaceFromGist` consumes: path keys in insertion order. -/
def toGistFiles (files : List (JStr × JStr)) : List (JStr × JStr) :=
  files.foldl (fun m f => jsObjInsert m f.1 f.2) []

/-- `crypto.randomUUID()` is a platform call producing a fresh opaque
identifier; identifiers recovered on rebuild play no role in any claim
("identifiers may differ"), so every recovered identifier is modelled by
this constant. -/
def uuid : JStr := jstr "uuid"

/-- `subjectsMap[subjectTitle]` handling of `rebuildWorkspaceFromGist`
(src/ui.js lines 1488-1502): push the file onto the subject with this
title, creating the subject at the end of the map when absent. -/
def pushGistFile (subs : List Subject) (stitle : JStr) (f : WFile) : List Subject :=
  if subs.any (fun s => s.title == stitle) then
    subs.map (fun s => if s.title == stitle then { s with files := s.files ++ [f] } else s)
  else subs ++ [⟨uuid, stitle, true, [f]⟩]

/-- One loop iteration of `rebuildWorkspaceFromGist` (src/ui.js lines
1477-1503).  `filename.split("___")` is destructured into
`[rawSubject, rawFileWithExt]`; when the filename holds no separator the
second component is `undefined` and `rawFileWithExt.replace(...)` throws a
TypeError, modelled as `Except.error`. -/
def rebuildStep (subs : List Subject) (filename content : JStr) :
    Except Unit (List Subject) :=
  let parts := splitSep filename
  let rawSubject := parts.headD []
  match parts[1]? with
  | none => Except.error ()
  | some rawFileWithExt =>
    let subjectTitle := underscoresToSpaces rawSubject
    let fileTitle := underscoresToSpaces (stripExt rawFileWithExt)
    let ty := if jsEndsWith (jstr ".puml") rawFileWithExt then jstr "puml" else jstr "md"
    Except.ok (pushGistFile subs subjectTitle ⟨uuid, fileTitle, ty, content⟩)

/-- The `for (const filename in gistFiles)` loop of
`rebuildWorkspaceFromGist`, over the keys in insertion order (path keys
always contain `"___"` and a dot, hence are never array-index-like). -/
def rebuildGo (subs : List Subject) : List (JStr × JStr) → Except Unit (List Subject)
  | [] => Except.ok subs
  | (filename, content) :: rest =>
    match rebuildStep subs filename content with
    | Except.error e => Except.error e
    | Except.ok subs2 => rebuildGo subs2 rest

/-- `rebuildWorkspaceFromGist(gistFiles)` (src/ui.js lines 1474-1506). -/
def rebuildWorkspaceFromGist (gistFiles : List (JStr × JStr)) :
    Except Unit (List Subject) :=
  rebuildGo [] gistFiles

/-! ## Content hasher (src/sync.js lines 315-330) -/

/-- Modelled from the spec: `crypto.subtle.digest("SHA-256", …)` is a
platform call, not code of this repository.  The spec requires a
deterministic, collision-avoiding digest rendered as (nonempty) lowercase
hexadecimal; the model is an injective, never-empty stand-in, so digest
equality coincides with equality of the canonical text being digested. -/
def sha256hex (s : JStr) : JStr := jstr "sha256:" ++ s

/-- `hashGistContent(files)` (src/sync.js lines 315-330), parameterised by
the comparator: the source sorts the entries with
`([a], [b]) => a.localeCompare(b)`, a host-collation comparison that is
not fixed by the source, so it is passed in as `cmp` (the environment's
collator).  `f.content || ""` equals the content string in this model. -/
def hashGistContent (cmp : JStr → JStr → Int) (files : List (JStr × JStr)) : JStr :=
  let entries :=
    (stableSort (fun a b => decide (cmp a.1 b.1 < 0)) files).map
      (fun e => e.1 ++ jstr "\n" ++ e.2)
  sha256hex (joinSep (jstr "\n---\n") entries)

/-- Modelled from the spec: the hash as §4.1 describes it — "sort entries
by path using a total, locale-independent ordering (byte/codepoint
order)", then concatenate path, newline, content, join with the fixed
separator and digest.  Used to compare the spec's algorithm with the
source's. -/
def hashSpecSorted (files : List (JStr × JStr)) : JStr :=
  let entries :=
    (stableSort (fun a b => jstrLt a.1 b.1) files).map
      (fun e => e.1 ++ jstr "\n" ++ e.2)
  sha256hex (joinSep (jstr "\n---\n") entries)

/-- Modelled from the platform: `String.prototype.localeCompare` called
with no arguments applies the host's default-locale collation (ECMA-402,
UTS #10).  Under the root collation letters are ordered primarily
alphabetically, case being a lower-priority difference, so
`"a".localeCompare("B") < 0` in every mainstream engine, while codepoint
order has `'B' < 'a'`.  The model folds ASCII case and then compares by
codepoint, which reproduces the root collation on the strings this file
applies it to. -/
def localeCmpModel (a b : JStr) : Int :=
  let fold := fun (s : JStr) => s.map Char.toLower
  if jstrCmp (fold a) (fold b) ≠ 0 then jstrCmp (fold a) (fold b) else jstrCmp a b

/-! ## Sync engine model (src/sync.js, second listing, lines 208-582)

Each `async` function of the module is modelled as a pure function of an
environment `Env` — the outcome of every network request this tick, the
clock and the login state — and the mutable state `St` (module-level
variables plus the localStorage keys).  It returns the final state, the
ordered trace of emitted UI/network effects, and `Except.error ()` when
the function terminates by an uncaught exception (an unhandled promise
rejection). -/

/-- The body of a gist GET/POST/PATCH response as the sync module reads
it: `.id`, `.updated_at` (modelled as integer milliseconds), and `.files`
— absent (`none`) on API error bodies, which the source does not always
guard against. -/
structure GistBody where
  id : JStr
  updatedAt : Int
  files : Option (List (JStr × JStr))
deriving DecidableEq

/-- Outcome of one `fetch`: the promise rejects (`thrown`), or a response
arrives with an `ok` flag and a parsed JSON body. -/
inductive FetchResult (α : Type) where
  | thrown : FetchResult α
  | resp (ok : Bool) (body : α) : FetchResult α
deriving DecidableEq

/-- Observable effects emitted during a tick: status-bar updates
(`setSyncStatus`), notifications, the login indicator refresh of
`requireLogin`, sidebar re-render, the conflict countdown modal, and the
outgoing create/update request of a save (`isPatch`, target id, and the
file map sent — a `none` value would be an explicit null deletion entry). -/
inductive Act where
  | syncStatus (state label : JStr)
  | notify (severity text : JStr)
  | loginIndicator
  | renderSidebar
  | countdownModal (countdown : Int) (message : JStr)
  | saveRequest (isPatch : Bool) (target : Option JStr) (files : List (JStr × Option JStr))
deriving DecidableEq

/-- The environment of one tick: wall clock, login state, the collator
behind `localeCompare`, and the outcome of each network request the tick
may make, keyed by call site. -/
structure Env where
  now : Int
  loggedIn : Bool
  localeCmp : JStr → JStr → Int
  /-- `GET /gists` in `getNewestGistAcrossAccount` (lines 507-513). -/
  listGists : FetchResult (List GistBody)
  /-- `GET /gists/{id}` in `getLatestWorkspaceGist` (lines 240-249). -/
  metaFetch : JStr → FetchResult GistBody
  /-- `GET /gists/{id}` existing-gist check in `saveWorkspaceToGist`
  (lines 408-410); `res.json()` is read without consulting `res.ok`, so
  only the body (or a rejection) matters. -/
  existingFetch : JStr → FetchResult GistBody
  /-- The `POST /gists` or `PATCH /gists/{id}` of `saveWorkspaceToGist`
  (lines 437-446). -/
  saveResp : FetchResult GistBody
  /-- `GET /gists/{id}` in `loadWorkspaceFromGist` (lines 489-493);
  `res.ok` is never consulted there. -/
  loadFetch : JStr → FetchResult GistBody

/-- The mutable state: the ui.js workspace global `subjects`, its
persisted copy (localStorage "kb_data"), the persisted gist id and
last-synced hash, the module variables of sync.js. -/
structure St where
  subjects : List Subject
  kbData : List Subject
  gistId : Option JStr
  storedHash : Option JStr
  lastSyncedHash : Option JStr
  lastSuccessfulSyncTime : Int
  lastLocalEditTime : Int
deriving DecidableEq

deriving instance DecidableEq for Except

/-- Result of a modelled async function: emitted actions in order, final
state, and whether it resolved (`ok`) or rejected (`error`). -/
structure Out (α : Type) where
  actions : List Act
  state : St
  result : Except Unit α
deriving DecidableEq

/-- `syncInterval` (line 221): 2 minutes in milliseconds. -/
def syncInterval : Int := 2 * 60 * 1000

/-- `idleReturnThreshold` (line 222). -/
def idleReturnThreshold : Int := syncInterval * 2

/-- The effects of a failing `requireLogin()` (src/auth.js lines 60-68):
refresh the login indicator and warn. -/
def requireLoginActions : List Act :=
  [Act.loginIndicator, Act.notify (jstr "warning") (jstr "Please sign in with GitHub first")]

/-- `getNewestGistAcrossAccount()` (lines 502-520): list every gist of the
account, sort by `updated_at` descending (JS stable sort with comparator
`new Date(b.updated_at) - new Date(a.updated_at)`), return the newest, or
`null` when not logged in, on a non-2xx listing, or an empty list.  The
locally stored gist id is never consulted. -/
def getNewestGistAcrossAccount (env : Env) : List Act × Except Unit (Option GistBody) :=
  if ¬ env.loggedIn then (requireLoginActions, Except.ok none)
  else
    match env.listGists with
    | FetchResult.thrown => ([], Except.error ())
    | FetchResult.resp ok list =>
      if ¬ ok then ([], Except.ok none)
      else if list.isEmpty then ([], Except.ok none)
      else ([], Except.ok ((stableSort (fun a b => decide (b.updatedAt < a.updatedAt)) list).head?))

/-- `getLatestWorkspaceGist()` (lines 229-251): fetch the gist stored
under the persisted id; `null` when not logged in, no id is stored, or
the response is non-2xx. -/
def getLatestWorkspaceGist (env : Env) (st : St) : List Act × Except Unit (Option GistBody) :=
  if ¬ env.loggedIn then (requireLoginActions, Except.ok none)
  else
    match st.gistId with
    | none => ([], Except.ok none)
    | some gid =>
      match env.metaFetch gid with
      | FetchResult.thrown => ([], Except.error ())
      | FetchResult.resp ok body =>
        if ¬ ok then ([], Except.ok none) else ([], Except.ok (some body))

/-- `updateSyncState(hash)` (lines 282-287): defensively ignore a falsy
hash, otherwise record it in the module variable and localStorage and
stamp `lastSuccessfulSyncTime`. -/
def updateSyncState (env : Env) (hash : JStr) (st : St) : St :=
  if hash = [] then st
  else { st with lastSyncedHash := some hash, storedHash := some hash,
                 lastSuccessfulSyncTime := env.now }

/-- `hashGistContent(files)` applied to a fetched body's possibly-absent
`.files`: `Object.entries(undefined)` throws, modelled as `error`. -/
def hashBodyFiles (env : Env) (files : Option (List (JStr × JStr))) : Except Unit JStr :=
  match files with
  | none => Except.error ()
  | some fs => Except.ok (hashGistContent env.localeCmp fs)

/-- `handleCloudChange(latest, idleReturn)` (lines 289-313): choose the
countdown — 30 s when the user typed within the last 30 000 ms, else
10 s — and show the conflict modal.  The `idleReturn` argument is unused
in the source body; the `onConfirm`/`onCancel` closures run only when the
modal collaborator later fires them, hence no state change this tick. -/
def handleCloudChange (env : Env) (st : St) (_latest : GistBody)
    (_idleReturn : Bool) : List Act :=
  let recentlyTyped := env.now - st.lastLocalEditTime < 30000
  let countdown : Int := if recentlyTyped then 30 else 10
  [Act.countdownModal countdown (jstr "A newer cloud version was found.")]

/-- `showSyncState("saving")` (lines 468-475). -/
def showSyncStateSaving : Act := Act.syncStatus (jstr "saving") (jstr "Saving…")

/-- `showSyncState("synced")`. -/
def showSyncStateSynced : Act := Act.syncStatus (jstr "synced") (jstr "Synced")

/-- `showSyncState("error")`. -/
def showSyncStateError : Act := Act.syncStatus (jstr "error") (jstr "Error")

/-- The create/update request and response handling of
`saveWorkspaceToGist` (lines 437-466), after the method/url decision:
`jsGistId` is the function-local `gistId` variable at that point (`null`
means POST to the collection, otherwise PATCH to that id).  Every file
entry sent carries a content object — never a null deletion entry.  On a
non-2xx response: error status, one error notification, state untouched.
On a thrown fetch: the rejection propagates uncaught (no notification,
state untouched).  On success: persist the returned id when created
fresh (`!gistId && data.id`), then recompute `lastSyncedHash` and
`lastSuccessfulSyncTime` from the returned `data.files` — throwing when
that field is absent, after the id was already persisted. -/
def saveMainRequest (env : Env) (st : St) (pre : List Act) (jsGistId : Option JStr)
    (gistFiles : List (JStr × JStr)) : Out Unit :=
  match env.saveResp with
  | FetchResult.thrown =>
    ⟨pre ++ [Act.saveRequest jsGistId.isSome jsGistId
        (gistFiles.map (fun p => (p.1, Option.some p.2)))], st, Except.error ()⟩
  | FetchResult.resp ok data =>
    if ¬ ok then
      ⟨pre ++ [Act.saveRequest jsGistId.isSome jsGistId
          (gistFiles.map (fun p => (p.1, Option.some p.2))), showSyncStateError,
        Act.notify (jstr "error") (jstr "Failed to load workspace")], st, Except.ok ()⟩
    else
      match data.files with
      | none =>
        ⟨pre ++ [Act.saveRequest jsGistId.isSome jsGistId
            (gistFiles.map (fun p => (p.1, Option.some p.2)))],
         if jsGistId = none ∧ data.id ≠ [] then { st with gistId := some data.id } else st,
         Except.error ()⟩
      | some dfiles =>
        ⟨pre ++ [Act.saveRequest jsGistId.isSome jsGistId
            (gistFiles.map (fun p => (p.1, Option.some p.2))), showSyncStateSynced,
          Act.notify (jstr "success") (jstr "Workspace saved to cloud")],
         { (if jsGistId = none ∧ data.id ≠ [] then { st with gistId := some data.id } else st) with
             lastSyncedHash := some (hashGistContent env.localeCmp dfiles),
             storedHash := some (hashGistContent env.localeCmp dfiles),
             lastSuccessfulSyncTime := env.now },
         Except.ok ()⟩

/-- `saveWorkspaceToGist()` (lines 376-466).  With an id stored, the
existing gist is fetched (json body read without an `ok` check); when its
sorted filename list equals the sorted flatten output (the
`JSON.stringify` comparison of two string arrays, equivalent to list
equality), the save PATCHes that id, otherwise the local `gistId`
variable is nulled and a fresh gist is POSTed.  A rejection of the
existing-gist fetch is caught: error status, one error notification,
abort with state untouched. -/
def saveWorkspaceToGist (env : Env) (st : St) : Out Unit :=
  if ¬ env.loggedIn then ⟨requireLoginActions, st, Except.ok ()⟩
  else
    match st.gistId with
    | none =>
      saveMainRequest env st [showSyncStateSaving] none
        (toGistFiles (flattenWorkspace st.subjects))
    | some gid =>
      match env.existingFetch gid with
      | FetchResult.thrown =>
        ⟨[showSyncStateSaving, showSyncStateError,
          Act.notify (jstr "error") (jstr "Failed to load workspace")], st, Except.ok ()⟩
      | FetchResult.resp _ existing =>
        match existing.files with
        | none =>
          saveMainRequest env st [showSyncStateSaving] none
            (toGistFiles (flattenWorkspace st.subjects))
        | some efiles =>
          if stableSort jstrLt (efiles.map (fun p => p.1))
              = stableSort jstrLt ((flattenWorkspace st.subjects).map (fun f => f.1))
          then
            saveMainRequest env st [showSyncStateSaving] (some gid)
              (toGistFiles (flattenWorkspace st.subjects))
          else
            saveMainRequest env st [showSyncStateSaving] none
              (toGistFiles (flattenWorkspace st.subjects))

/-- `loadWorkspaceFromGist()` (lines 477-500).  `res.ok` is never
consulted; when the body carries no `files` field,
`rebuildWorkspaceFromGist(undefined)` iterates zero times
(`for (const k in undefined)`), so an empty workspace replaces and is
persisted over the local one, followed by a success notification. -/
def loadWorkspaceFromGist (env : Env) (st : St) : Out Unit :=
  if ¬ env.loggedIn then ⟨requireLoginActions, st, Except.ok ()⟩
  else
    match st.gistId with
    | none =>
      ⟨[Act.notify (jstr "info") (jstr "No cloud backup found. Save to Cloud first.")],
       st, Except.ok ()⟩
    | some gid =>
      match env.loadFetch gid with
      | FetchResult.thrown => ⟨[], st, Except.error ()⟩
      | FetchResult.resp _ data =>
        match data.files with
        | none =>
          ⟨[Act.renderSidebar, Act.notify (jstr "success") (jstr "Workspace loaded from cloud")],
           { st with subjects := [], kbData := [] }, Except.ok ()⟩
        | some gfiles =>
          match rebuildWorkspaceFromGist gfiles with
          | Except.error _ => ⟨[], st, Except.error ()⟩
          | Except.ok subs =>
            ⟨[Act.renderSidebar, Act.notify (jstr "success") (jstr "Workspace loaded from cloud")],
             { st with subjects := subs, kbData := subs }, Except.ok ()⟩

/-- `cloudHashChanged()` (lines 348-354): `false` when no gist could be
fetched (no id, not logged in, or non-2xx), otherwise whether the fresh
hash differs from `lastSyncedHash`. -/
def cloudHashChanged (env : Env) (st : St) : List Act × Except Unit Bool :=
  match getLatestWorkspaceGist env st with
  | (as, Except.error e) => (as, Except.error e)
  | (as, Except.ok none) => (as, Except.ok false)
  | (as, Except.ok (some latest)) =>
    match hashBodyFiles env latest.files with
    | Except.error e => (as, Except.error e)
    | Except.ok cloudHash => (as, Except.ok (decide (some cloudHash ≠ st.lastSyncedHash)))

/-- `maybeAutoSave()` (lines 334-346): save only when the user typed
within the last `syncInterval`, and the fresh cloud re-check did not
report a change. -/
def maybeAutoSave (env : Env) (st : St) : Out Unit :=
  if ¬ (env.now - st.lastLocalEditTime < syncInterval) then ⟨[], st, Except.ok ()⟩
  else
    match cloudHashChanged env st with
    | (as, Except.error e) => ⟨as, st, Except.error e⟩
    | (as, Except.ok true) => ⟨as, st, Except.ok ()⟩
    | (as, Except.ok false) =>
      ⟨as ++ (saveWorkspaceToGist env st).actions,
       (saveWorkspaceToGist env st).state, (saveWorkspaceToGist env st).result⟩

/-- `runSyncCheck(reason)` (lines 261-280): fetch the newest gist across
the account, hash its files, then either adopt the hash as first
observation, raise the conflict modal on divergence, or refresh the sync
stamp and consider an auto-save. -/
def runSyncCheck (env : Env) (st : St) : Out Unit :=
  match getNewestGistAcrossAccount env with
  | (as, Except.error e) => ⟨as, st, Except.error e⟩
  | (as, Except.ok none) => ⟨as, st, Except.ok ()⟩
  | (as, Except.ok (some latest)) =>
    match hashBodyFiles env latest.files with
    | Except.error e => ⟨as, st, Except.error e⟩
    | Except.ok cloudHash =>
      match st.lastSyncedHash with
      | none => ⟨as, updateSyncState env cloudHash st, Except.ok ()⟩
      | some h =>
        if cloudHash ≠ h then
          ⟨as ++ handleCloudChange env st latest
              (decide (env.now - st.lastSuccessfulSyncTime > idleReturnThreshold)),
           st, Except.ok ()⟩
        else
          ⟨as ++ (maybeAutoSave env (updateSyncState env cloudHash st)).actions,
           (maybeAutoSave env (updateSyncState env cloudHash st)).state,
           (maybeAutoSave env (updateSyncState env cloudHash st)).result⟩

/-- `markLocalEdit()` (lines 561-563). -/
def markLocalEdit (env : Env) (st : St) : St :=
  { st with lastLocalEditTime := env.now }

/-! ## Concrete fixtures for witnesses and counterexamples -/

/-- A markdown file "Notes", as in the spec's section-8 scenario. -/
def fileNotes : WFile := ⟨jstr "f1", jstr "Notes", jstr "md", jstr "# Hi"⟩

/-- A folder "Work" holding `fileNotes`. -/
def subjWork : Subject := ⟨jstr "s1", jstr "Work", true, [fileNotes]⟩

/-- The flattened form of `[subjWork]`. -/
def filesA : List (JStr × JStr) := [(jstr "Work___Notes.md", jstr "# Hi")]

/-- A remote file map differing from `filesA` in content. -/
def filesB : List (JStr × JStr) := [(jstr "Work___Notes.md", jstr "# Bye")]

/-- A gist holding `filesA`. -/
def gistA : GistBody := ⟨jstr "g1", 1000, some filesA⟩

/-- A younger gist holding `filesB`. -/
def gistB : GistBody := ⟨jstr "g2", 2000, some filesB⟩

/-- Hash of `filesA`; the fixture paths are distinct ASCII strings, on
which every collation of interest agrees, so the codepoint comparator
stands in for the collator. -/
def hashA : JStr := hashGistContent jstrCmp filesA

/-- Hash of `filesB`. -/
def hashB : JStr := hashGistContent jstrCmp filesB

/-- Environment template for concrete runs. -/
def envBase : Env where
  now := 1000000
  loggedIn := true
  localeCmp := jstrCmp
  listGists := FetchResult.resp true [gistA]
  metaFetch := fun _ => FetchResult.resp true gistA
  existingFetch := fun _ => FetchResult.resp true gistA
  saveResp := FetchResult.resp true gistA
  loadFetch := fun _ => FetchResult.resp true gistA

/-- State template for concrete runs: the user edited 10 s ago, within
the sync interval. -/
def stBase : St where
  subjects := [subjWork]
  kbData := [subjWork]
  gistId := some (jstr "g1")
  storedHash := some hashA
  lastSyncedHash := some hashA
  lastSuccessfulSyncTime := 900000
  lastLocalEditTime := 990000

/-- A prior remote listing holding one extra path `"Work___Old.md"` on
top of `filesA` (a file deleted locally since the last save). -/
def gistOld : GistBody := ⟨jstr "g1", 500, some (filesA ++ [(jstr "Work___Old.md", jstr "old")])⟩

/-- An API error body: no `files` field (as GitHub returns for non-2xx). -/
def errBody : GistBody := ⟨jstr "", 0, none⟩

/-- The account's newest gist is `gistB`, whose hash differs from `hashA`. -/
def envNewerCloud : Env := { envBase with listGists := FetchResult.resp true [gistB] }

/-- The account listing request returns non-2xx. -/
def envListFail : Env := { envBase with listGists := FetchResult.resp false [] }

/-- The account listing request rejects (network failure). -/
def envListThrown : Env := { envBase with listGists := FetchResult.thrown }

/-- No credential stored. -/
def envLoggedOut : Env := { envBase with loggedIn := false }

/-- The by-id re-fetch of the auto-save eligibility re-check returns
non-2xx. -/
def envMetaFail : Env := { envBase with metaFetch := fun _ => FetchResult.resp false errBody }

/-- The save's create/update request rejects (network failure). -/
def envSaveThrown : Env := { envBase with saveResp := FetchResult.thrown }

/-- The save's create/update request returns non-2xx; the existing-gist
check sees `gistA`, whose filename list matches the flatten output of
`stBase`, so the save is a PATCH to the stored identifier. -/
def envSaveFail : Env := { envBase with saveResp := FetchResult.resp false errBody }

/-- The load's fetch returns non-2xx with an error body lacking `files`. -/
def envLoadErrBody : Env := { envBase with loadFetch := fun _ => FetchResult.resp false errBody }

/-- The save's existing-gist check sees the prior listing `gistOld`. -/
def envPriorExtra : Env := { envBase with existingFetch := fun _ => FetchResult.resp true gistOld }

/-- `stBase` with no remote identifier persisted. -/
def stNoGist : St := { stBase with gistId := none }

/-- A "Work"/"Notes" workspace whose file carries the alias content-kind
tag "markdown" (listed by the spec's data model as a valid kind). -/
def subjMark : Subject :=
  ⟨jstr "s1", jstr "Work", true, [⟨jstr "f1", jstr "Notes", jstr "markdown", jstr "# Hi"⟩]⟩

/-- Titles, content-kind tags and contents of a workspace, per folder in
order — the quantities C4 compares (identifiers and flags excluded). -/
def shape (subjects : List Subject) : List (JStr × List (JStr × JStr × JStr)) :=
  subjects.map (fun s => (s.title, s.files.map (fun f => (f.title, f.type, f.content))))

/-- `rebuild(flatten(W))`: the flatten output turned into the JS file-map
object and rebuilt. -/
def roundTrip (subjects : List Subject) : Except Unit (List Subject) :=
  rebuildWorkspaceFromGist (toGistFiles (flattenWorkspace subjects))

/-- `true` when every file entry of a save request carries content — no
explicit null deletion entry. -/
def noNullEntries (fs : List (JStr × Option JStr)) : Bool := fs.all (fun p => p.2.isSome)

/-- `true` when no PATCH (update) save request occurs among the actions. -/
def patchFree (as : List Act) : Bool :=
  as.all fun a => match a with
    | Act.saveRequest true _ _ => false
    | _ => true

/-- Number of error notifications among the actions. -/
def errorNotifCount (as : List Act) : Nat :=
  as.countP fun a => match a with
    | Act.notify sev _ => sev == jstr "error"
    | _ => false

/-- No two consecutive spaces. -/
def noTwoSpaces : JStr → Bool
  | [] => true
  | [_] => true
  | a :: b :: rest => !(a == ' ' && b == ' ') && noTwoSpaces (b :: rest)

/-- A title that survives the serializer round trip: no underscore, the
only whitespace is single interior spaces (so sanitizing is the injective
map space-to-underscore, undone exactly by the rebuild). -/
def titleOk (t : JStr) : Bool :=
  t.all (fun c => !(c == '_') && (!(isJsWs c) || c == ' ')) &&
  noTwoSpaces t &&
  !(t.head? == some (' ' : Char)) && !(t.getLast? == some (' ' : Char))

/-- A file whose round trip is exact: clean title and a canonical (not
alias) content-kind tag. -/
def fileOk (f : WFile) : Bool :=
  titleOk f.title && (f.type == jstr "md" || f.type == jstr "puml")

/-- Folder titles that are nonempty all-digit strings would be enumerated
as JS array-index keys ahead of insertion order in the rebuild's object;
exclude them. -/
def subjectKeyOk (t : JStr) : Bool := t.isEmpty || !(t.all Char.isDigit)

/-- The hypotheses under which `rebuild(flatten(W))` reproduces `W`'s
shape: clean distinct folder titles, clean per-folder distinct file
titles, canonical content-kind tags. -/
def GoodWorkspace (subjects : List Subject) : Prop :=
  (∀ s ∈ subjects, titleOk s.title = true ∧ subjectKeyOk s.title = true ∧
    s.files ≠ [] ∧
    (∀ f ∈ s.files, fileOk f = true) ∧ (s.files.map (fun f => f.title)).Nodup) ∧
  (subjects.map (fun s => s.title)).Nodup

/-- The sanitizing substitution on a clean title: a space becomes an
underscore (on titles with no whitespace runs this is all
`collapseWs` does). -/
def sanChar (c : Char) : Char := if c = ' ' then '_' else c

/-- Sanitized form of a clean title. -/
def sanTitle (t : JStr) : JStr := t.map sanChar

/-- No two consecutive underscores. -/
def noDoubleUnderscore : JStr → Bool
  | [] => true
  | [_] => true
  | a :: b :: rest => !(a == '_' && b == '_') && noDoubleUnderscore (b :: rest)

/-- The file produced for `f` by a rebuild (fresh identifier, recovered
title/tag/content). -/
def expFile (f : WFile) : WFile := ⟨uuid, f.title, f.type, f.content⟩

/-- The subject produced for `s` by a rebuild. -/
def expSubject (s : Subject) : Subject :=
  ⟨uuid, s.title, true, s.files.map expFile⟩

/-- The flattened path of file `f` under a subject titled `stitle`, in
sanitized form (what `flattenWorkspace` produces on clean titles). -/
def sanPath (stitle : JStr) (f : WFile) : JStr :=
  sanTitle stitle ++ SEP ++ sanTitle f.title ++ extOf f.type

/-- `true` when no conflict countdown modal occurs among the actions. -/
def modalFree (as : List Act) : Bool :=
  as.all fun a => match a with
    | Act.countdownModal _ _ => false
    | _ => true

/-! ## Properties of the stable sort -/

theorem insertStable_perm (lt : α → α → Bool) (x : α) (l : List α) :
    List.Perm (insertStable lt x l) (x :: l) := by
  induction l with
  | nil => simp [insertStable]
  | cons y ys ih =>
    by_cases h : lt x y
    · simp [insertStable, h]
    · simp only [insertStable, h, if_false]
      exact ((ih.cons y).trans (List.Perm.swap x y ys))

theorem stableSort_perm (lt : α → α → Bool) (l : List α) :
    List.Perm (stableSort lt l) l := by
  suffices h : ∀ acc : List α,
      List.Perm (l.foldl (fun acc x => insertStable lt x acc) acc) (acc ++ l) by
    simpa using h []
  induction l with
  | nil => intro acc; simp
  | cons y ys ih =>
    intro acc
    simp only [List.foldl_cons]
    refine (ih (insertStable lt y acc)).trans ?_
    have h1 : List.Perm (insertStable lt y acc ++ ys) ((y :: acc) ++ ys) :=
      (insertStable_perm lt y acc).append_right ys
    exact h1.trans List.perm_middle.symm

theorem mem_insertStable {lt : α → α → Bool} {x z : α} {l : List α}
    (h : z ∈ insertStable lt x l) : z = x ∨ z ∈ l := by
  have := (insertStable_perm lt x l).mem_iff.mp h
  simpa using this

theorem insertStable_pairwise (lt : α → α → Bool)
    (hasym : ∀ a b, lt a b = true → lt b a = false)
    (hnegtrans : ∀ a b c, lt b a = false → lt c b = false → lt c a = false)
    (x : α) (l : List α) (hl : List.Pairwise (fun a b => lt b a = false) l) :
    List.Pairwise (fun a b => lt b a = false) (insertStable lt x l) := by
  induction l with
  | nil => simp [insertStable]
  | cons y ys ih =>
    rcases List.pairwise_cons.mp hl with ⟨hy, hys⟩
    by_cases h : lt x y
    · simp only [insertStable, h, if_true]
      refine List.pairwise_cons.mpr ⟨?_, hl⟩
      intro z hz
      rcases List.mem_cons.mp hz with rfl | hz
      · exact hasym x z h
      · exact hnegtrans x y z (hasym x y h) (hy z hz)
    · simp only [insertStable, h, if_false]
      refine List.pairwise_cons.mpr ⟨?_, ih hys⟩
      intro z hz
      rcases mem_insertStable hz with rfl | hz
      · exact Bool.eq_false_iff.mpr h
      · exact hy z hz

theorem stableSort_pairwise (lt : α → α → Bool)
    (hasym : ∀ a b, lt a b = true → lt b a = false)
    (hnegtrans : ∀ a b c, lt b a = false → lt c b = false → lt c a = false)
    (l : List α) :
    List.Pairwise (fun a b => lt b a = false) (stableSort lt l) := by
  suffices h : ∀ acc : List α, List.Pairwise (fun a b => lt b a = false) acc →
      List.Pairwise (fun a b => lt b a = false)
        (l.foldl (fun acc x => insertStable lt x acc) acc) by
    exact h [] List.Pairwise.nil
  induction l with
  | nil => intro acc hacc; simpa using hacc
  | cons y ys ih =>
    intro acc hacc
    exact ih (insertStable lt y acc) (insertStable_pairwise lt hasym hnegtrans y acc hacc)

/-- Two sorted lists that are permutations of one another are equal, when the
sorting relation is antisymmetric on the elements involved. -/
theorem sorted_perm_eq (R : α → α → Prop) :
    ∀ l₁ l₂ : List α, List.Perm l₁ l₂ → List.Pairwise R l₁ → List.Pairwise R l₂ →
      (∀ a ∈ l₁, ∀ b ∈ l₁, R a b → R b a → a = b) → l₁ = l₂ := by
  intro l₁
  induction l₁ with
  | nil => intro l₂ hp _ _ _; exact (hp.symm.eq_nil).symm
  | cons a t₁ ih =>
    intro l₂ hp h₁ h₂ hanti
    cases l₂ with
    | nil => exact absurd hp.eq_nil (by simp)
    | cons b t₂ =>
      rcases List.pairwise_cons.mp h₁ with ⟨ha, ht₁⟩
      rcases List.pairwise_cons.mp h₂ with ⟨hb, ht₂⟩
      have hab : a = b := by
        by_cases h : a = b
        · exact h
        · have haIn : a ∈ b :: t₂ := hp.mem_iff.mp (List.mem_cons_self a t₁)
          have haT₂ : a ∈ t₂ := by
            rcases List.mem_cons.mp haIn with h' | h'
            · exact absurd h' h
            · exact h'
          have hbIn : b ∈ a :: t₁ := hp.mem_iff.mpr (List.mem_cons_self b t₂)
          have hbT₁ : b ∈ t₁ := by
            rcases List.mem_cons.mp hbIn with h' | h'
            · exact absurd h'.symm h
            · exact h'
          exact hanti a (List.mem_cons_self a t₁) b (List.mem_cons.mpr (Or.inr hbT₁))
            (ha b hbT₁) (hb a haT₂)
      subst hab
      have htp : List.Perm t₁ t₂ := hp.cons_inv
      have : t₁ = t₂ := by
        refine ih t₂ htp ht₁ ht₂ ?_
        intro x hx y hy
        exact hanti x (List.mem_cons.mpr (Or.inr hx)) y (List.mem_cons.mpr (Or.inr hy))
      rw [this]

/-- A stable sort of two permuted lists yields the same list, provided the
comparison ties no two distinct elements of the lists. -/
theorem stableSort_eq_of_perm (lt : α → α → Bool)
    (hasym : ∀ a b, lt a b = true → lt b a = false)
    (hnegtrans : ∀ a b c, lt b a = false → lt c b = false → lt c a = false)
    (l₁ l₂ : List α) (hp : List.Perm l₁ l₂)
    (hanti : ∀ a ∈ l₁, ∀ b ∈ l₁, lt b a = false → lt a b = false → a = b) :
    stableSort lt l₁ = stableSort lt l₂ := by
  refine sorted_perm_eq (fun a b => lt b a = false) _ _
    (((stableSort_perm lt l₁).trans hp).trans (stableSort_perm lt l₂).symm)
    (stableSort_pairwise lt hasym hnegtrans l₁)
    (stableSort_pairwise lt hasym hnegtrans l₂) ?_
  intro a hamem b hbmem hr hr'
  have ha' : a ∈ l₁ := (stableSort_perm lt l₁).mem_iff.mp hamem
  have hb' : b ∈ l₁ := (stableSort_perm lt l₁).mem_iff.mp hbmem
  exact hanti a ha' b hb' hr hr'

/-! ## Helper lemmas about emitted actions -/

theorem modalFree_append (as bs : List Act) :
    modalFree (as ++ bs) = (modalFree as && modalFree bs) := by
  simp [modalFree, List.all_append]

theorem not_mem_of_modalFree {c : Int} {m : JStr} {as : List Act}
    (h : modalFree as = true) : Act.countdownModal c m ∉ as := by
  intro hmem
  have h2 := List.all_eq_true.mp h _ hmem
  simp at h2

theorem modalFree_nil : modalFree [] = true := rfl

theorem modalFree_cons (a : Act) (as : List Act) :
    modalFree (a :: as)
      = ((match a with | Act.countdownModal _ _ => false | _ => true) && modalFree as) := by
  simp [modalFree]

theorem getNewestGistAcrossAccount_modalFree (env : Env) :
    modalFree (getNewestGistAcrossAccount env).1 = true := by
  unfold getNewestGistAcrossAccount
  repeat' split
  all_goals rfl

theorem getLatestWorkspaceGist_modalFree (env : Env) (st : St) :
    modalFree (getLatestWorkspaceGist env st).1 = true := by
  unfold getLatestWorkspaceGist
  repeat' split
  all_goals rfl

theorem saveMainRequest_modalFree (env : Env) (st : St) (pre : List Act)
    (jsGistId : Option JStr) (gistFiles : List (JStr × JStr))
    (hpre : modalFree pre = true) :
    modalFree (saveMainRequest env st pre jsGistId gistFiles).actions = true := by
  unfold saveMainRequest
  repeat' split
  all_goals simp [modalFree_append, hpre, modalFree_cons, modalFree_nil,
    showSyncStateError, showSyncStateSynced]

theorem saveWorkspaceToGist_modalFree (env : Env) (st : St) :
    modalFree (saveWorkspaceToGist env st).actions = true := by
  unfold saveWorkspaceToGist
  repeat' split
  all_goals first
    | rfl
    | exact saveMainRequest_modalFree _ _ _ _ _ rfl

theorem cloudHashChanged_modalFree (env : Env) (st : St) :
    modalFree (cloudHashChanged env st).1 = true := by
  have hl := getLatestWorkspaceGist_modalFree env st
  unfold cloudHashChanged
  repeat' split
  all_goals simp_all

theorem maybeAutoSave_modalFree (env : Env) (st : St) :
    modalFree (maybeAutoSave env st).actions = true := by
  have hc := cloudHashChanged_modalFree env st
  have hs := saveWorkspaceToGist_modalFree env st
  unfold maybeAutoSave
  repeat' split
  all_goals simp_all [modalFree_append, modalFree_nil]

theorem hashGistContent_ne_nil (cmp : JStr → JStr → Int) (files : List (JStr × JStr)) :
    hashGistContent cmp files ≠ [] := by
  unfold hashGistContent sha256hex
  intro h
  have h7 : jstr "sha256:" ≠ [] := by decide
  exact h7 (List.append_eq_nil.mp h).1

/-- C10: `rebuildWorkspaceFromGist` applied to a file map holding a
filename with no occurrence of the separator `"___"` does not return a
workspace: the split yields a single component, `rawFileWithExt` is
`undefined`, and calling `.replace` on it throws a TypeError. -/
theorem C10_rebuild_missing_separator_throws :
    rebuildWorkspaceFromGist [(jstr "notes.md", jstr "# text")] = Except.error () := by
  decide

/-- C7: when `lastSyncedHash` is null and the check's fetch yields a
snapshot with file map `fs` hashing to `H`, one `runSyncCheck` ends with
`lastSyncedHash = H`, the hash persisted (`storedHash`), and
`lastSuccessfulSyncTime` stamped to the tick's clock, while no action at
all — in particular neither the conflict modal nor an auto-save — is
emitted, and no other state field changes. -/
theorem C7_first_sync_adoption (env : Env) (st : St) (latest : GistBody)
    (fs : List (JStr × JStr))
    (hnull : st.lastSyncedHash = none)
    (hfetch : getNewestGistAcrossAccount env = ([], Except.ok (some latest)))
    (hfiles : latest.files = some fs) :
    runSyncCheck env st =
      ⟨[], { st with lastSyncedHash := some (hashGistContent env.localeCmp fs),
                     storedHash := some (hashGistContent env.localeCmp fs),
                     lastSuccessfulSyncTime := env.now }, Except.ok ()⟩ := by
  unfold runSyncCheck
  rw [hfetch]
  simp only [hashBodyFiles, hfiles, hnull]
  simp [updateSyncState, hashGistContent_ne_nil env.localeCmp fs]

/-- Closed witness for C7: a concrete fresh-device state adopts the hash
of the account's sole gist with no modal and no auto-save. -/
theorem C7_first_sync_adoption_witness :
    runSyncCheck envBase { stBase with lastSyncedHash := none } =
      ⟨[], { stBase with lastSyncedHash := some (hashGistContent envBase.localeCmp filesA),
                         storedHash := some (hashGistContent envBase.localeCmp filesA),
                         lastSuccessfulSyncTime := envBase.now }, Except.ok ()⟩ :=
  C7_first_sync_adoption envBase { stBase with lastSyncedHash := none } gistA filesA
    rfl (by decide) rfl

/-- C8: whenever `runSyncCheck` (on any environment and state) raises the
conflict countdown modal, the countdown passed is 30 seconds when
`now - lastLocalEditTime < 30000` milliseconds and 10 seconds otherwise. -/
theorem C8_countdown_selection (env : Env) (st : St) (c : Int) (msg : JStr)
    (h : Act.countdownModal c msg ∈ (runSyncCheck env st).actions) :
    c = if env.now - st.lastLocalEditTime < 30000 then 30 else 10 := by
  have hasF := getNewestGistAcrossAccount_modalFree env
  unfold runSyncCheck at h
  split at h
  · next as e heq =>
    rw [heq] at hasF
    exact absurd (by simpa using h) (not_mem_of_modalFree (by simpa using hasF))
  · next as heq =>
    rw [heq] at hasF
    exact absurd (by simpa using h) (not_mem_of_modalFree (by simpa using hasF))
  · next as latest heq =>
    rw [heq] at hasF
    have hasF2 : modalFree as = true := by simpa using hasF
    split at h
    · exact absurd (by simpa using h) (not_mem_of_modalFree hasF2)
    · split at h
      · exact absurd (by simpa using h) (not_mem_of_modalFree hasF2)
      · split at h
        · rcases List.mem_append.mp (by simpa using h) with h2 | h2
          · exact absurd h2 (not_mem_of_modalFree hasF2)
          · simp only [handleCloudChange, List.mem_singleton] at h2
            exact ((Act.countdownModal.injEq _ _ _ _).mp h2).1
        · rcases List.mem_append.mp (by simpa using h) with h2 | h2
          · exact absurd h2 (not_mem_of_modalFree hasF2)
          · exact absurd h2 (not_mem_of_modalFree (maybeAutoSave_modalFree env _))

/-- Closed application of C8: at a concrete newer-cloud tick with the last
keystroke 10 s ago, the modal raised by `runSyncCheck` carries a 30 s
countdown. -/
theorem C8_countdown_selection_witness :
    (30 : Int) = if envNewerCloud.now - stBase.lastLocalEditTime < 30000 then 30 else 10 :=
  C8_countdown_selection envNewerCloud stBase 30
    (jstr "A newer cloud version was found.") (by decide)

/-- Counterexample to C1: with no remote identifier stored at all, a
periodic check neither fetches by identifier nor aborts silently — the
account-wide newest gist is fetched, hashed, and a user-visible conflict
countdown modal is raised. -/
theorem C1_counterexample :
    stNoGist.gistId = none ∧
    (runSyncCheck envNewerCloud stNoGist).actions
      = [Act.countdownModal 30 (jstr "A newer cloud version was found.")] := by
  decide

/-- Counterexample to C6: the auto-save's fresh re-check fetch returns
non-2xx, so remote-hash equality cannot be confirmed
(`getLatestWorkspaceGist` yields `none` and `cloudHashChanged` defaults to
`false`), yet the tick still triggers the save — the saving status and the
outgoing update request both appear in the tick's actions. -/
theorem C6_counterexample :
    (getLatestWorkspaceGist envMetaFail stBase).2 = Except.ok none ∧
    showSyncStateSaving ∈ (runSyncCheck envMetaFail stBase).actions ∧
    Act.saveRequest true (some (jstr "g1"))
        ((toGistFiles filesA).map (fun p => (p.1, some p.2)))
      ∈ (runSyncCheck envMetaFail stBase).actions := by
  decide

/-- C3 failing input, evaluated: a non-2xx load response whose error body
carries no `files` field makes `loadWorkspaceFromGist` replace the local
workspace with the empty one, persist it, and report success — the local
workspace and its persisted copy are not left unchanged. -/
theorem C3_load_wipes_workspace :
    (stBase.subjects ≠ [] ∧ (envLoadErrBody.loadFetch (jstr "g1")
        = FetchResult.resp false errBody)) ∧
    loadWorkspaceFromGist envLoadErrBody stBase =
      ⟨[Act.renderSidebar, Act.notify (jstr "success") (jstr "Workspace loaded from cloud")],
       { stBase with subjects := [], kbData := [] }, Except.ok ()⟩ := by
  decide

/-- Counterexample to C9: when the create request itself rejects (thrown
fetch error), the save propagates the rejection with no error notification
at all — not exactly one — though the sync state is indeed untouched. -/
theorem C9_counterexample :
    envSaveThrown.saveResp = FetchResult.thrown ∧
    (saveWorkspaceToGist envSaveThrown stNoGist).result = Except.error () ∧
    errorNotifCount (saveWorkspaceToGist envSaveThrown stNoGist).actions = 0 ∧
    (saveWorkspaceToGist envSaveThrown stNoGist).state = stNoGist := by
  decide

/-- Counterexample to C2: with an identifier set and a path present in
the prior remote listing (`Work___Old.md`) but absent from the current
flatten output, the save issues no PATCH at all and no null deletion
entry: the filename mismatch makes it abandon the identifier and POST a
fresh gist whose file map holds only content entries. -/
theorem C2_counterexample :
    Act.saveRequest false none [(jstr "Work___Notes.md", some (jstr "# Hi"))]
        ∈ (saveWorkspaceToGist envPriorExtra stBase).actions ∧
    patchFree (saveWorkspaceToGist envPriorExtra stBase).actions = true ∧
    ((saveWorkspaceToGist envPriorExtra stBase).actions.all
        (fun a => match a with
          | Act.saveRequest _ _ fs => noNullEntries fs
          | _ => true)) = true := by
  decide

/-- Counterexample to C4: a workspace whose folder and file titles hold
no separator collision, but whose file carries the alias content-kind tag
"markdown"; the round trip returns the tag "md", so the content-kind tag
is not preserved. -/
theorem C4_counterexample :
    roundTrip [subjMark]
      = Except.ok [⟨uuid, jstr "Work", true, [⟨uuid, jstr "Notes", jstr "md", jstr "# Hi"⟩]⟩] ∧
    shape [⟨uuid, jstr "Work", true, [⟨uuid, jstr "Notes", jstr "md", jstr "# Hi"⟩]⟩]
      ≠ shape [subjMark] := by
  decide

/-- Counterexample to C5: the source sorts with `localeCompare`, whose
root collation orders `"a"` before `"B"` while codepoint order has
`'B' < 'a'`; on the two-entry map at hand, the digest the code computes
differs from the digest prescribed by the spec's locale-independent
byte/codepoint ordering. -/
theorem C5_counterexample :
    localeCmpModel (jstr "a") (jstr "B") < 0 ∧ jstrLt (jstr "B") (jstr "a") = true ∧
    hashGistContent localeCmpModel [(jstr "B", jstr "x"), (jstr "a", jstr "y")]
      ≠ hashSpecSorted [(jstr "B", jstr "x"), (jstr "a", jstr "y")] := by
  decide

/-! ## Helper lemmas about the save path -/

theorem getLatestWorkspaceGist_actions_nil (env : Env) (st : St)
    (hlog : env.loggedIn = true) : (getLatestWorkspaceGist env st).1 = [] := by
  unfold getLatestWorkspaceGist
  rw [hlog]
  simp only [not_true_eq_false, if_false]
  repeat' split
  all_goals rfl

theorem saveMainRequest_pre_mem (env : Env) (st : St) (pre : List Act)
    (jsGistId : Option JStr) (gistFiles : List (JStr × JStr)) {a : Act}
    (hmem : a ∈ pre) : a ∈ (saveMainRequest env st pre jsGistId gistFiles).actions := by
  unfold saveMainRequest
  repeat' split
  all_goals exact List.mem_append.mpr (Or.inl hmem)

theorem saveMainRequest_req_mem (env : Env) (st : St) (pre : List Act)
    (jsGistId : Option JStr) (gistFiles : List (JStr × JStr)) :
    Act.saveRequest jsGistId.isSome jsGistId (gistFiles.map (fun p => (p.1, some p.2)))
      ∈ (saveMainRequest env st pre jsGistId gistFiles).actions := by
  unfold saveMainRequest
  repeat' split
  all_goals exact List.mem_append.mpr (Or.inr (List.mem_cons_self _ _))

theorem saveWorkspaceToGist_saving_mem (env : Env) (st : St)
    (hlog : env.loggedIn = true) :
    showSyncStateSaving ∈ (saveWorkspaceToGist env st).actions := by
  unfold saveWorkspaceToGist
  rw [hlog]
  simp only [not_true_eq_false, if_false]
  repeat' split
  all_goals first
    | exact List.mem_cons_self _ _
    | exact saveMainRequest_pre_mem _ _ _ _ _ (List.mem_cons_self _ _)

theorem noNullEntries_map (l : List (JStr × JStr)) :
    noNullEntries (l.map (fun p => (p.1, some p.2))) = true := by
  induction l with
  | nil => rfl
  | cons x xs ih =>
    simp only [noNullEntries, List.map_cons, List.all_cons, Option.isSome_some,
      Bool.true_and] at ih ⊢
    exact ih

theorem saveMainRequest_no_null (env : Env) (st : St) (pre : List Act)
    (jsGistId : Option JStr) (gistFiles : List (JStr × JStr))
    (hpre : (pre.all (fun a => match a with
        | Act.saveRequest _ _ fs => noNullEntries fs
        | _ => true)) = true) :
    ((saveMainRequest env st pre jsGistId gistFiles).actions.all
      (fun a => match a with
        | Act.saveRequest _ _ fs => noNullEntries fs
        | _ => true)) = true := by
  unfold saveMainRequest
  repeat' split
  all_goals simp_all [List.all_append, noNullEntries_map, showSyncStateError, showSyncStateSynced]

/-- No save ever sends an explicit null deletion entry: every file entry
of every outgoing create/update request carries a content value. -/
theorem saveWorkspaceToGist_no_null (env : Env) (st : St) :
    ((saveWorkspaceToGist env st).actions.all
      (fun a => match a with
        | Act.saveRequest _ _ fs => noNullEntries fs
        | _ => true)) = true := by
  unfold saveWorkspaceToGist
  repeat' split
  all_goals first
    | rfl
    | exact saveMainRequest_no_null _ _ _ _ _ rfl

theorem saveMainRequest_outcomes (env : Env) (st : St) (jsGistId : Option JStr)
    (gistFiles : List (JStr × JStr)) :
    (env.saveResp = FetchResult.thrown →
      (saveMainRequest env st [showSyncStateSaving] jsGistId gistFiles).result
          = Except.error () ∧
      errorNotifCount (saveMainRequest env st [showSyncStateSaving] jsGistId gistFiles).actions
          = 0 ∧
      (saveMainRequest env st [showSyncStateSaving] jsGistId gistFiles).state = st) ∧
    (∀ data, env.saveResp = FetchResult.resp false data →
      (saveMainRequest env st [showSyncStateSaving] jsGistId gistFiles).result
          = Except.ok () ∧
      errorNotifCount (saveMainRequest env st [showSyncStateSaving] jsGistId gistFiles).actions
          = 1 ∧
      (saveMainRequest env st [showSyncStateSaving] jsGistId gistFiles).state = st) ∧
    (∀ data dfiles, env.saveResp = FetchResult.resp true data → data.files = some dfiles →
      (saveMainRequest env st [showSyncStateSaving] jsGistId gistFiles).state.lastSyncedHash
          = some (hashGistContent env.localeCmp dfiles) ∧
      (saveMainRequest env st [showSyncStateSaving] jsGistId gistFiles).state.storedHash
          = some (hashGistContent env.localeCmp dfiles) ∧
      (saveMainRequest env st [showSyncStateSaving] jsGistId gistFiles).state.lastSuccessfulSyncTime
          = env.now) := by
  refine ⟨fun h => ?_, fun data h => ?_, fun data dfiles h hf => ?_⟩
  all_goals unfold saveMainRequest
  all_goals rw [h]
  · exact ⟨rfl, rfl, rfl⟩
  · exact ⟨rfl, rfl, rfl⟩
  · simp [hf]

/-- Under a credential and a prior-listing fetch that does not throw,
`saveWorkspaceToGist` always funnels into `saveMainRequest` on the
flatten output, with some method/identifier choice. -/
theorem saveWorkspaceToGist_reaches_request (env : Env) (st : St)
    (hlog : env.loggedIn = true)
    (hfetch : ∀ gid, st.gistId = some gid → env.existingFetch gid ≠ FetchResult.thrown) :
    ∃ jsGistId : Option JStr,
      saveWorkspaceToGist env st
        = saveMainRequest env st [showSyncStateSaving] jsGistId
            (toGistFiles (flattenWorkspace st.subjects)) := by
  cases hg : st.gistId with
  | none =>
    refine ⟨none, ?_⟩
    unfold saveWorkspaceToGist
    simp [hlog, hg]
  | some gid =>
    cases hex : env.existingFetch gid with
    | thrown => exact absurd hex (hfetch gid hg)
    | resp ok existing =>
      cases hef : existing.files with
      | none =>
        refine ⟨none, ?_⟩
        unfold saveWorkspaceToGist
        simp [hlog, hg, hex, hef]
      | some efiles =>
        by_cases hcmp : stableSort jstrLt (efiles.map (fun p => p.1))
            = stableSort jstrLt ((flattenWorkspace st.subjects).map (fun f => f.1))
        · refine ⟨some gid, ?_⟩
          unfold saveWorkspaceToGist
          simp [hlog, hg, hex, hef, hcmp]
        · refine ⟨none, ?_⟩
          unfold saveWorkspaceToGist
          simp [hlog, hg, hex, hef, hcmp]

/-- C1 amended: `runSyncCheck` takes its snapshot from
`getNewestGistAcrossAccount` — the newest gist of the whole account,
never the one under the persisted identifier (see the counterexample) —
and aborts this check with no state change at all when the account
listing is unavailable: silently (no action) when the listing request
returns non-2xx or an empty list, with only the login warning when no
credential is stored, and as a bare rejection when the listing request
throws. -/
theorem C1_account_newest_abort (env : Env) (st : St) :
    (env.loggedIn = false → runSyncCheck env st = ⟨requireLoginActions, st, Except.ok ()⟩) ∧
    (∀ l, env.loggedIn = true → env.listGists = FetchResult.resp false l →
      runSyncCheck env st = ⟨[], st, Except.ok ()⟩) ∧
    (env.loggedIn = true → env.listGists = FetchResult.resp true [] →
      runSyncCheck env st = ⟨[], st, Except.ok ()⟩) ∧
    (env.loggedIn = true → env.listGists = FetchResult.thrown →
      runSyncCheck env st = ⟨[], st, Except.error ()⟩) := by
  refine ⟨fun h => ?_, fun l h hl => ?_, fun h hl => ?_, fun h hl => ?_⟩
  all_goals unfold runSyncCheck getNewestGistAcrossAccount
  all_goals rw [h]
  · simp
  all_goals rw [hl]
  all_goals simp

/-- Closed application of the C1 amendment: a non-2xx account listing
aborts the check silently, leaving the state untouched. -/
theorem C1_account_newest_abort_witness :
    runSyncCheck envListFail stBase = ⟨[], stBase, Except.ok ()⟩ :=
  (C1_account_newest_abort envListFail stBase).2.1 [] rfl rfl

/-- C9 amended: for any save that reaches the create/update request —
logged in, and the existing-gist check (when an identifier is stored)
not throwing — whether the request is the POST creating a gist or the
PATCH updating the stored one: a thrown request propagates as a
rejection with no error notification at all and every piece of state
untouched; a non-2xx response surfaces exactly one error notification,
state equally untouched; on success `lastSyncedHash` (and its persisted
copy) is recomputed from the file content the store returned —
`data.files` — not from the locally flattened map, and
`lastSuccessfulSyncTime` is stamped. -/
theorem C9_save_failure_handling (env : Env) (st : St)
    (hlog : env.loggedIn = true)
    (hfetch : ∀ gid, st.gistId = some gid → env.existingFetch gid ≠ FetchResult.thrown) :
    (env.saveResp = FetchResult.thrown →
      (saveWorkspaceToGist env st).result = Except.error () ∧
      errorNotifCount (saveWorkspaceToGist env st).actions = 0 ∧
      (saveWorkspaceToGist env st).state = st) ∧
    (∀ data, env.saveResp = FetchResult.resp false data →
      (saveWorkspaceToGist env st).result = Except.ok () ∧
      errorNotifCount (saveWorkspaceToGist env st).actions = 1 ∧
      (saveWorkspaceToGist env st).state = st) ∧
    (∀ data dfiles, env.saveResp = FetchResult.resp true data → data.files = some dfiles →
      (saveWorkspaceToGist env st).state.lastSyncedHash
          = some (hashGistContent env.localeCmp dfiles) ∧
      (saveWorkspaceToGist env st).state.storedHash
          = some (hashGistContent env.localeCmp dfiles) ∧
      (saveWorkspaceToGist env st).state.lastSuccessfulSyncTime = env.now) := by
  obtain ⟨jsGistId, hEq⟩ := saveWorkspaceToGist_reaches_request env st hlog hfetch
  rw [hEq]
  exact saveMainRequest_outcomes env st jsGistId (toGistFiles (flattenWorkspace st.subjects))

/-- Closed application of the C9 amendment on the update path: the
identifier is stored and the prior listing matches the flatten output,
so the request sent is a PATCH to that identifier; its non-2xx response
surfaces exactly one error notification and leaves the state
untouched. -/
theorem C9_save_failure_handling_witness :
    Act.saveRequest true (some (jstr "g1"))
        ((toGistFiles (flattenWorkspace stBase.subjects)).map (fun p => (p.1, some p.2)))
      ∈ (saveWorkspaceToGist envSaveFail stBase).actions ∧
    (saveWorkspaceToGist envSaveFail stBase).result = Except.ok () ∧
    errorNotifCount (saveWorkspaceToGist envSaveFail stBase).actions = 1 ∧
    (saveWorkspaceToGist envSaveFail stBase).state = stBase :=
  ⟨by decide,
   (C9_save_failure_handling envSaveFail stBase rfl
      (fun _ _ h => FetchResult.noConfusion h)).2.1 errBody rfl⟩

/-- C2 amended: with an identifier stored and the prior remote listing
reachable, the save compares the sorted prior filename list against the
sorted flatten output: on exact equality it PATCHes the same identifier,
on any difference — deletions included — it abandons the identifier and
POSTs a brand-new gist; in both cases the file map sent holds a content
entry per flattened path and never an explicit null deletion entry
(`saveWorkspaceToGist_no_null` states the never-null part for every save
whatsoever). -/
theorem C2_update_or_create (env : Env) (st : St) (gid : JStr)
    (ok : Bool) (existing : GistBody) (efiles : List (JStr × JStr))
    (hlog : env.loggedIn = true) (hgid : st.gistId = some gid)
    (hex : env.existingFetch gid = FetchResult.resp ok existing)
    (hef : existing.files = some efiles) :
    (stableSort jstrLt (efiles.map (fun p => p.1))
        = stableSort jstrLt ((flattenWorkspace st.subjects).map (fun f => f.1)) →
      Act.saveRequest true (some gid)
          ((toGistFiles (flattenWorkspace st.subjects)).map (fun p => (p.1, some p.2)))
        ∈ (saveWorkspaceToGist env st).actions) ∧
    (stableSort jstrLt (efiles.map (fun p => p.1))
        ≠ stableSort jstrLt ((flattenWorkspace st.subjects).map (fun f => f.1)) →
      Act.saveRequest false none
          ((toGistFiles (flattenWorkspace st.subjects)).map (fun p => (p.1, some p.2)))
        ∈ (saveWorkspaceToGist env st).actions) ∧
    ((saveWorkspaceToGist env st).actions.all
        (fun a => match a with
          | Act.saveRequest _ _ fs => noNullEntries fs
          | _ => true)) = true := by
  refine ⟨fun hmatch => ?_, fun hmatch => ?_, saveWorkspaceToGist_no_null env st⟩
  all_goals unfold saveWorkspaceToGist
  · simp only [hlog, hgid, hex, hef, eq_self_iff_true, not_true, if_false, if_pos hmatch]
    exact saveMainRequest_req_mem env st _ (some gid) _
  · simp only [hlog, hgid, hex, hef, eq_self_iff_true, not_true, if_false, if_neg hmatch]
    exact saveMainRequest_req_mem env st _ none _

/-- Closed application of the C2 amendment: the prior listing holds the
extra path `Work___Old.md`, the filename lists differ, so the save POSTs
a fresh gist with content entries only. -/
theorem C2_update_or_create_witness :
    Act.saveRequest false none
        ((toGistFiles (flattenWorkspace stBase.subjects)).map (fun p => (p.1, some p.2)))
      ∈ (saveWorkspaceToGist envPriorExtra stBase).actions :=
  (C2_update_or_create envPriorExtra stBase (jstr "g1") true gistOld
    (filesA ++ [(jstr "Work___Old.md", jstr "old")]) rfl rfl rfl rfl).2.1 (by decide)

/-- With a credential stored, `cloudHashChanged` emits no action and its
verdict depends only on the by-identifier re-fetch: `false` when no gist
could be obtained, a comparison of the fresh hash against
`lastSyncedHash` when one could, and a rejection when the body lacks
`files` (or the fetch throws). -/
theorem cloudHashChanged_spec (env : Env) (st : St) (hlog : env.loggedIn = true) :
    cloudHashChanged env st =
      ([], match (getLatestWorkspaceGist env st).2 with
        | Except.error e => Except.error e
        | Except.ok none => Except.ok false
        | Except.ok (some g) =>
          match g.files with
          | none => Except.error ()
          | some fs =>
            Except.ok (decide (some (hashGistContent env.localeCmp fs)
              ≠ st.lastSyncedHash))) := by
  have hnil := getLatestWorkspaceGist_actions_nil env st hlog
  unfold cloudHashChanged hashBodyFiles
  rcases hgl : getLatestWorkspaceGist env st with ⟨gas, gres⟩
  rw [hgl] at hnil
  simp only at hnil
  subst hnil
  rcases gres with e | v
  · rfl
  · rcases v with _ | g
    · rfl
    · rcases hgf : g.files with _ | fs
      all_goals simp [hgf]

/-- C6 amended: with a credential stored, the tick's auto-save stage
begins a save (the saving status is emitted) exactly when the user edited
within the last `syncInterval` AND the fresh re-check either could not
obtain the gist under the persisted identifier (no identifier stored, or
a non-2xx re-fetch — `cloudHashChanged` then reports `false`) or
re-fetched it and its hash still equals `lastSyncedHash`.  A failed
re-fetch thus does not block the auto-save; only an observed differing
hash does (a thrown re-fetch or a body without files rejects the tick,
and then no save begins either). -/
theorem C6_autosave_gating (env : Env) (st : St) (hlog : env.loggedIn = true) :
    showSyncStateSaving ∈ (maybeAutoSave env st).actions ↔
      (env.now - st.lastLocalEditTime < syncInterval ∧
        ((getLatestWorkspaceGist env st).2 = Except.ok none ∨
          (∃ g fs, (getLatestWorkspaceGist env st).2 = Except.ok (some g) ∧
            g.files = some fs ∧
            some (hashGistContent env.localeCmp fs) = st.lastSyncedHash))) := by
  by_cases hrec : env.now - st.lastLocalEditTime < syncInterval
  · have ceq := cloudHashChanged_spec env st hlog
    rcases hgl : (getLatestWorkspaceGist env st).2 with e | v
    · rw [hgl] at ceq
      simp only at ceq
      unfold maybeAutoSave
      rw [if_neg (not_not_intro hrec), ceq]
      simp [hrec, hgl]
    · rcases v with _ | g
      · rw [hgl] at ceq
        simp only at ceq
        unfold maybeAutoSave
        rw [if_neg (not_not_intro hrec), ceq]
        exact ⟨fun _ => ⟨hrec, Or.inl rfl⟩,
          fun _ => saveWorkspaceToGist_saving_mem env st hlog⟩
      · rcases hgf : g.files with _ | fs
        · rw [hgl] at ceq
          simp only [hgf] at ceq
          unfold maybeAutoSave
          rw [if_neg (not_not_intro hrec), ceq]
          simp [hrec, hgl, hgf]
        · by_cases heq : some (hashGistContent env.localeCmp fs) = st.lastSyncedHash
          · rw [hgl] at ceq
            simp only [hgf, heq, ne_eq, not_true_eq_false, decide_False] at ceq
            unfold maybeAutoSave
            rw [if_neg (not_not_intro hrec), ceq]
            exact ⟨fun _ => ⟨hrec, Or.inr ⟨g, fs, rfl, hgf, heq⟩⟩,
              fun _ => saveWorkspaceToGist_saving_mem env st hlog⟩
          · rw [hgl] at ceq
            simp only [hgf, ne_eq] at ceq
            rw [show (decide ¬(some (hashGistContent env.localeCmp fs)
                = st.lastSyncedHash)) = true by simp [heq]] at ceq
            unfold maybeAutoSave
            rw [if_neg (not_not_intro hrec), ceq]
            simp [hrec, hgl, hgf, heq]
  · unfold maybeAutoSave
    rw [if_pos hrec]
    simp [hrec]

/-- Closed application of the C6 amendment: at the base tick the re-check
hash matches, the user edited 10 s ago, and the save begins. -/
theorem C6_autosave_gating_witness :
    showSyncStateSaving ∈ (maybeAutoSave envBase stBase).actions :=
  (C6_autosave_gating envBase stBase rfl).mpr
    ⟨by decide, Or.inr ⟨gistA, filesA, by decide, rfl, by decide⟩⟩

/-! ## Serializer round-trip: sanitizing clean titles -/

theorem titleOk_props {t : JStr} (h : titleOk t = true) :
    (∀ c ∈ t, c ≠ '_' ∧ (isJsWs c = true → c = ' ')) ∧ noTwoSpaces t = true ∧
      t.head? ≠ some ' ' ∧ t.getLast? ≠ some ' ' := by
  simp only [titleOk, Bool.and_eq_true, List.all_eq_true, Bool.or_eq_true,
    Bool.not_eq_true', beq_iff_eq, beq_eq_false_iff_ne, ne_eq] at h
  obtain ⟨⟨⟨hall, h2⟩, h3⟩, h4⟩ := h
  refine ⟨fun c hc => ?_, h2, ?_, ?_⟩
  · obtain ⟨hu, hw⟩ := hall c hc
    refine ⟨hu, fun hws => ?_⟩
    rcases hw with hw | hw
    · exact absurd hws (by simp [hw])
    · exact hw
  · intro hh
    rw [hh] at h3
    simp at h3
  · intro hh
    rw [hh] at h4
    simp at h4

theorem noTwoSpaces_tail {c : Char} {rest : JStr} (h : noTwoSpaces (c :: rest) = true) :
    noTwoSpaces rest = true := by
  cases rest with
  | nil => rfl
  | cons d r =>
    simp only [noTwoSpaces, Bool.and_eq_true] at h
    exact h.2

theorem noTwoSpaces_head {rest : JStr} (h : noTwoSpaces (' ' :: rest) = true) :
    rest.head? ≠ some ' ' := by
  cases rest with
  | nil => simp
  | cons d r =>
    simp only [noTwoSpaces, Bool.and_eq_true, Bool.not_eq_true', Bool.and_eq_false_iff,
      beq_eq_false_iff_ne, ne_eq] at h
    rcases h.1 with h1 | h1
    · simp at h1
    · simp [h1]

theorem collapseWsGo_clean : ∀ (t : JStr) (prev : Bool),
    (∀ c ∈ t, c ≠ '_' ∧ (isJsWs c = true → c = ' ')) →
    noTwoSpaces t = true →
    (prev = true → t.head? ≠ some ' ') →
    collapseWsGo prev t = sanTitle t := by
  intro t
  induction t with
  | nil => intro prev _ _ _; rfl
  | cons c rest ih =>
    intro prev hall h2 hprev
    by_cases hws : isJsWs c = true
    · have hc : c = ' ' := (hall c (List.mem_cons_self c rest)).2 hws
      subst hc
      cases prev with
      | true => exact absurd (show (' ' :: rest).head? = some ' ' from rfl) (hprev rfl)
      | false =>
        simp only [collapseWsGo, hws, if_true]
        have hrest := ih true (fun x hx => hall x (List.mem_cons_of_mem _ hx))
          (noTwoSpaces_tail h2) (fun _ => noTwoSpaces_head h2)
        rw [hrest]
        simp [sanTitle, sanChar]
    · have hc : c ≠ ' ' := fun hh => hws (by rw [hh]; rfl)
      simp only [collapseWsGo, hws, if_false]
      have hrest := ih false (fun x hx => hall x (List.mem_cons_of_mem _ hx))
        (noTwoSpaces_tail h2) (by simp)
      rw [hrest]
      simp [sanTitle, sanChar, hc]

/-- On a clean title the sanitizer is exactly the space-to-underscore
substitution. -/
theorem collapseWs_clean {t : JStr} (h : titleOk t = true) :
    collapseWs t = sanTitle t := by
  obtain ⟨hall, h2, _, _⟩ := titleOk_props h
  exact collapseWsGo_clean t false hall h2 (by simp)

/-- The rebuild's underscore-to-space substitution undoes the sanitizer
on titles free of underscores. -/
theorem underscoresToSpaces_sanTitle {t : JStr} (h : ∀ c ∈ t, c ≠ '_') :
    underscoresToSpaces (sanTitle t) = t := by
  unfold underscoresToSpaces sanTitle
  rw [List.map_map]
  have : ∀ c ∈ t, ((fun c => if c = '_' then ' ' else c) ∘ sanChar) c = id c := by
    intro c hc
    simp only [Function.comp, sanChar, id]
    by_cases hcs : c = ' '
    · simp [hcs]
    · simp [hcs, h c hc]
  rw [List.map_congr_left this, List.map_id]

theorem sanTitle_inj {t₁ t₂ : JStr} (h1 : ∀ c ∈ t₁, c ≠ '_') (h2 : ∀ c ∈ t₂, c ≠ '_')
    (h : sanTitle t₁ = sanTitle t₂) : t₁ = t₂ := by
  have := congrArg underscoresToSpaces h
  rwa [underscoresToSpaces_sanTitle h1, underscoresToSpaces_sanTitle h2] at this

theorem noDouble_sanTitle : ∀ (t : JStr), (∀ c ∈ t, c ≠ '_') → noTwoSpaces t = true →
    noDoubleUnderscore (sanTitle t) = true
  | [], _, _ => rfl
  | [x], _, _ => rfl
  | a :: b :: rest, hall, h2 => by
    simp only [noTwoSpaces, Bool.and_eq_true, Bool.not_eq_true', Bool.and_eq_false_iff,
      beq_eq_false_iff_ne, ne_eq] at h2
    have hrec := noDouble_sanTitle (b :: rest)
      (fun x hx => hall x (List.mem_cons_of_mem _ hx)) h2.2
    simp only [sanTitle, List.map_cons] at hrec ⊢
    simp only [noDoubleUnderscore, Bool.and_eq_true, Bool.not_eq_true', Bool.and_eq_false_iff,
      beq_eq_false_iff_ne, ne_eq, hrec, and_true]
    have ha : a ≠ '_' := hall a (List.mem_cons_self _ _)
    have hb : b ≠ '_' := hall b (List.mem_cons_of_mem _ (List.mem_cons_self _ _))
    rcases h2.1 with h1 | h1
    · left
      simp only [sanChar]
      by_cases has : a = ' '
      · exact absurd has h1
      · simp [has, ha]
    · right
      simp only [sanChar]
      by_cases hbs : b = ' '
      · exact absurd hbs h1
      · simp [hbs, hb]

theorem sanTitle_getLast {t : JStr} (hall : ∀ c ∈ t, c ≠ '_')
    (hlast : t.getLast? ≠ some ' ') : (sanTitle t).getLast? ≠ some '_' := by
  unfold sanTitle
  rw [List.getLast?_map]
  intro hcontra
  cases hg : t.getLast? with
  | none => rw [hg] at hcontra; simp at hcontra
  | some c =>
    rw [hg] at hcontra
    have hc : sanChar c = '_' := by simpa using hcontra
    have hcmem : c ∈ t := by
      cases t with
      | nil => simp at hg
      | cons x xs => exact List.mem_of_mem_getLast? (by simp [hg])
    by_cases hcs : c = ' '
    · rw [hcs] at hg; exact hlast hg
    · simp [sanChar, hcs] at hc
      exact (hall c hcmem) hc

/-! ## Serializer round-trip: the separator split -/

theorem noDoubleUnderscore_tail {c : Char} {rest : JStr}
    (h : noDoubleUnderscore (c :: rest) = true) : noDoubleUnderscore rest = true := by
  cases rest with
  | nil => rfl
  | cons d r =>
    simp only [noDoubleUnderscore, Bool.and_eq_true] at h
    exact h.2

theorem noDoubleUnderscore_head {a b : Char} {rest : JStr}
    (h : noDoubleUnderscore (a :: b :: rest) = true) : ¬ (a = '_' ∧ b = '_') := by
  simp only [noDoubleUnderscore, Bool.and_eq_true, Bool.not_eq_true',
    Bool.and_eq_false_iff, beq_eq_false_iff_ne, ne_eq] at h
  rintro ⟨rfl, rfl⟩
  rcases h.1 with h1 | h1 <;> exact h1 rfl

theorem split3Go_noSep : ∀ (t cur : JStr), noDoubleUnderscore t = true →
    split3Go '_' '_' '_' cur t = [cur.reverse ++ t]
  | [], cur, _ => by simp [split3Go]
  | [x], cur, _ => by simp [split3Go]
  | [x, y], cur, _ => by simp [split3Go]
  | x :: y :: z :: rest, cur, h => by
    have hh : ¬(x = '_' ∧ y = '_' ∧ z = '_') := by
      intro ⟨h1, h2, _⟩
      exact noDoubleUnderscore_head h ⟨h1, h2⟩
    rw [split3Go, if_neg hh,
      split3Go_noSep (y :: z :: rest) (x :: cur) (noDoubleUnderscore_tail h)]
    simp

theorem split3Go_atSep : ∀ (a cur b : JStr), noDoubleUnderscore a = true →
    a.getLast? ≠ some '_' →
    split3Go '_' '_' '_' cur (a ++ '_' :: '_' :: '_' :: b)
      = (cur.reverse ++ a) :: split3Go '_' '_' '_' [] b
  | [], cur, b, _, _ => by simp [split3Go]
  | [c], cur, b, _, hl => by
    have hc : c ≠ '_' := by simpa using hl
    simp only [List.cons_append, List.nil_append]
    rw [split3Go, if_neg (by rintro ⟨hh, _⟩; exact hc hh),
      split3Go, if_pos ⟨rfl, rfl, rfl⟩]
    simp
  | c :: d :: a'', cur, b, h, hl => by
    cases a'' with
    | nil =>
      have hd : d ≠ '_' := by simpa using hl
      have hrec := split3Go_atSep [d] (c :: cur) b rfl (by simpa using hd)
      simp only [List.cons_append, List.nil_append] at hrec ⊢
      rw [split3Go, if_neg (by rintro ⟨_, hh, _⟩; exact hd hh), hrec]
      simp
    | cons e a''' =>
      have h1 : ¬(c = '_' ∧ d = '_') := noDoubleUnderscore_head h
      have hlast : (d :: e :: a''').getLast? ≠ some '_' := by
        simpa using hl
      have hrec := split3Go_atSep (d :: e :: a''') (c :: cur) b
        (noDoubleUnderscore_tail h) hlast
      simp only [List.cons_append] at hrec ⊢
      rw [split3Go, if_neg (by rintro ⟨hh1, hh2, _⟩; exact h1 ⟨hh1, hh2⟩), hrec]
      simp

/-- `path.split("___")` on a path assembled from a separator-free prefix
(no double underscore, not ending in an underscore) and a separator-free
tail yields exactly the two pieces. -/
theorem splitSep_parts (a b : JStr) (ha : noDoubleUnderscore a = true)
    (hla : a.getLast? ≠ some '_') (hb : noDoubleUnderscore b = true) :
    splitSep (a ++ SEP ++ b) = [a, b] := by
  unfold splitSep
  have hsep : a ++ SEP ++ b = a ++ '_' :: '_' :: '_' :: b := by
    rw [List.append_assoc]
    rfl
  rw [hsep, split3Go_atSep a [] b ha hla, split3Go_noSep b [] hb]
  simp

/-! ## Serializer round-trip: extension stripping and tagging -/

theorem takeWhile_append_all {p : Char → Bool} {u : JStr} (w : JStr)
    (h : ∀ c ∈ u, p c = true) : (u ++ w).takeWhile p = u ++ w.takeWhile p := by
  induction u with
  | nil => simp
  | cons c cs ih =>
    simp only [List.cons_append, List.takeWhile_cons, h c (List.mem_cons_self c cs), if_true]
    rw [ih (fun x hx => h x (List.mem_cons_of_mem c hx))]

/-- Stripping `/\.[^.]+$/` from `x ++ "." ++ m` (dot-free nonempty `m`)
recovers `x`. -/
theorem stripExt_append_ext (x m : JStr) (hm : m ≠ []) (hdot : ∀ c ∈ m, c ≠ '.') :
    stripExt (x ++ '.' :: m) = x := by
  unfold stripExt
  have hrev : (x ++ '.' :: m).reverse = m.reverse ++ '.' :: x.reverse := by
    rw [List.reverse_append, List.reverse_cons, List.append_assoc]
    simp
  rw [hrev]
  have htake : (m.reverse ++ '.' :: x.reverse).takeWhile (fun c => c ≠ '.') = m.reverse := by
    rw [takeWhile_append_all ('.' :: x.reverse)
      (fun c hc => by simpa using hdot c (List.mem_reverse.mp hc))]
    simp [List.takeWhile_cons]
  rw [htake]
  have hmlen : 0 < m.reverse.length := by
    simpa using List.length_pos.mpr hm
  have hlen : m.reverse.length < (x ++ '.' :: m).length := by
    simp
    omega
  rw [if_pos ⟨hmlen, hlen⟩]
  have hdrop : (m.reverse ++ '.' :: x.reverse).drop (m.reverse.length + 1) = x.reverse := by
    have hda : (m.reverse ++ '.' :: x.reverse).drop (m.reverse.length + 1)
        = ('.' :: x.reverse).drop 1 := List.drop_append 1
    simpa using hda
  rw [hdrop, List.reverse_reverse]

theorem jsEndsWith_md_false (x : JStr) :
    jsEndsWith (jstr ".puml") (x ++ jstr ".md") = false := by
  unfold jsEndsWith
  refine Bool.eq_false_iff.mpr fun h => ?_
  rcases List.isSuffixOf_iff_suffix.mp h with ⟨t, ht⟩
  have h1 : (t ++ jstr ".puml").getLast? = some 'l' := by
    rw [List.getLast?_append_of_ne_nil t (by decide)]
    decide
  have h2 : (x ++ jstr ".md").getLast? = some 'd' := by
    rw [List.getLast?_append_of_ne_nil x (by decide)]
    decide
  rw [ht, h2] at h1
  simp at h1

theorem jsEndsWith_puml_true (x : JStr) :
    jsEndsWith (jstr ".puml") (x ++ jstr ".puml") = true := by
  unfold jsEndsWith
  exact List.isSuffixOf_iff_suffix.mpr (List.suffix_append x _)

/-! ## Serializer round-trip: parsing a sanitized path -/

theorem noDouble_append : ∀ (u v : JStr), noDoubleUnderscore u = true →
    noDoubleUnderscore v = true → v.head? ≠ some '_' →
    noDoubleUnderscore (u ++ v) = true
  | [], v, _, hv, _ => hv
  | [c], v, _, hv, hb => by
    cases v with
    | nil => rfl
    | cons d v' =>
      have hd : d ≠ '_' := by simpa using hb
      simp only [List.cons_append, List.nil_append, noDoubleUnderscore,
        Bool.and_eq_true, Bool.not_eq_true', Bool.and_eq_false_iff,
        beq_eq_false_iff_ne, ne_eq]
      exact ⟨Or.inr hd, hv⟩
  | c :: d :: u', v, hu, hv, hb => by
    have hrec := noDouble_append (d :: u') v (noDoubleUnderscore_tail hu) hv hb
    have hcd := noDoubleUnderscore_head hu
    simp only [List.cons_append] at hrec ⊢
    simp only [noDoubleUnderscore, Bool.and_eq_true, Bool.not_eq_true',
      Bool.and_eq_false_iff, beq_eq_false_iff_ne, ne_eq]
    refine ⟨?_, hrec⟩
    by_cases hc : c = '_'
    · exact Or.inr (fun hd => hcd ⟨hc, hd⟩)
    · exact Or.inl hc

theorem fileOk_props {f : WFile} (h : fileOk f = true) :
    titleOk f.title = true ∧ (f.type = jstr "md" ∨ f.type = jstr "puml") := by
  simp only [fileOk, Bool.and_eq_true, Bool.or_eq_true, beq_iff_eq] at h
  exact h

theorem extOf_md : extOf (jstr "md") = jstr ".md" := by decide

theorem extOf_puml : extOf (jstr "puml") = jstr ".puml" := by decide

theorem noDouble_extOf {ty : JStr} (h : ty = jstr "md" ∨ ty = jstr "puml") :
    noDoubleUnderscore (extOf ty) = true := by
  rcases h with rfl | rfl <;> decide

theorem extOf_head {ty : JStr} (h : ty = jstr "md" ∨ ty = jstr "puml") :
    (extOf ty).head? ≠ some '_' := by
  rcases h with rfl | rfl <;> decide

/-- Splitting a sanitized path on the separator yields the sanitized
folder title and the sanitized file title with its extension. -/
theorem splitSep_sanPath (st : JStr) (f : WFile) (hst : titleOk st = true)
    (hf : fileOk f = true) :
    splitSep (sanPath st f) = [sanTitle st, sanTitle f.title ++ extOf f.type] := by
  obtain ⟨hallS, h2S, _, hlastS⟩ := titleOk_props hst
  obtain ⟨hft, hty⟩ := fileOk_props hf
  obtain ⟨hallF, h2F, _, hlastF⟩ := titleOk_props hft
  have hpath : sanPath st f = sanTitle st ++ SEP ++ (sanTitle f.title ++ extOf f.type) := by
    unfold sanPath
    rw [List.append_assoc]
  rw [hpath]
  refine splitSep_parts _ _ ?_ ?_ ?_
  · exact noDouble_sanTitle st (fun c hc => (hallS c hc).1) h2S
  · exact sanTitle_getLast (fun c hc => (hallS c hc).1) hlastS
  · exact noDouble_append _ _
      (noDouble_sanTitle f.title (fun c hc => (hallF c hc).1) h2F)
      (noDouble_extOf hty) (extOf_head hty)

/-- One rebuild iteration on a sanitized path parses back the clean
folder title, file title and content-kind tag, and pushes the recovered
file. -/
theorem rebuildStep_clean (subs : List Subject) (st : JStr) (f : WFile)
    (hst : titleOk st = true) (hf : fileOk f = true) :
    rebuildStep subs (sanPath st f) f.content
      = Except.ok (pushGistFile subs st ⟨uuid, f.title, f.type, f.content⟩) := by
  obtain ⟨hallS, h2S, _, _⟩ := titleOk_props hst
  obtain ⟨hft, hty⟩ := fileOk_props hf
  obtain ⟨hallF, h2F, _, _⟩ := titleOk_props hft
  unfold rebuildStep
  rw [splitSep_sanPath st f hst hf]
  simp only [List.headD_cons, List.getElem?_cons_succ, List.getElem?_cons_zero]
  have hsubj : underscoresToSpaces (sanTitle st) = st :=
    underscoresToSpaces_sanTitle (fun c hc => (hallS c hc).1)
  have hfile : underscoresToSpaces (stripExt (sanTitle f.title ++ extOf f.type))
      = f.title := by
    rcases hty with hmd | hpuml
    · rw [hmd, extOf_md, show jstr ".md" = '.' :: jstr "md" from rfl,
        stripExt_append_ext _ _ (by decide) (by decide)]
      exact underscoresToSpaces_sanTitle (fun c hc => (hallF c hc).1)
    · rw [hpuml, extOf_puml, show jstr ".puml" = '.' :: jstr "puml" from rfl,
        stripExt_append_ext _ _ (by decide) (by decide)]
      exact underscoresToSpaces_sanTitle (fun c hc => (hallF c hc).1)
  have htag : (if jsEndsWith (jstr ".puml") (sanTitle f.title ++ extOf f.type) = true
      then jstr "puml" else jstr "md") = f.type := by
    rcases hty with hmd | hpuml
    · rw [hmd, extOf_md, jsEndsWith_md_false]
      simp [hmd]
    · rw [hpuml, extOf_puml, jsEndsWith_puml_true]
      simp [hpuml]
  rw [hsubj, hfile]
  congr 1
  rcases hty with hmd | hpuml
  · rw [hmd, extOf_md, jsEndsWith_md_false]
    simp [hmd]
  · rw [hpuml, extOf_puml, jsEndsWith_puml_true]
    simp [hpuml]

theorem pushGistFile_new (acc : List Subject) (stitle : JStr) (f : WFile)
    (h : ∀ s ∈ acc, s.title ≠ stitle) :
    pushGistFile acc stitle f = acc ++ [⟨uuid, stitle, true, [f]⟩] := by
  unfold pushGistFile
  rw [if_neg]
  simp only [List.any_eq_true, beq_iff_eq, not_exists, not_and]
  exact h

theorem pushGistFile_last (acc : List Subject) (p : Subject) (f : WFile)
    (h : ∀ s ∈ acc, s.title ≠ p.title) :
    pushGistFile (acc ++ [p]) p.title f
      = acc ++ [{ p with files := p.files ++ [f] }] := by
  unfold pushGistFile
  rw [if_pos]
  · rw [List.map_append]
    have hmap : acc.map (fun s => if (s.title == p.title) = true
        then { s with files := s.files ++ [f] } else s) = acc.map id :=
      List.map_congr_left (fun s hs => by simp [h s hs])
    rw [hmap, List.map_id]
    simp
  · simp only [List.any_eq_true, beq_iff_eq]
    exact ⟨p, List.mem_append.mpr (Or.inr (List.mem_cons_self _ _)), rfl⟩

theorem rebuildGo_append : ∀ (l₁ l₂ : List (JStr × JStr)) (acc m : List Subject),
    rebuildGo acc l₁ = Except.ok m → rebuildGo acc (l₁ ++ l₂) = rebuildGo m l₂
  | [], l₂, acc, m, h => by
    simp only [rebuildGo] at h
    cases h
    rfl
  | (fn, ct) :: rest, l₂, acc, m, h => by
    simp only [rebuildGo] at h ⊢
    cases hs : rebuildStep acc fn ct with
    | error e => rw [hs] at h; cases h
    | ok subs2 =>
      rw [hs] at h
      exact rebuildGo_append rest l₂ subs2 m h

theorem rebuildGo_files : ∀ (fs : List WFile) (acc : List Subject) (p : Subject)
    (stRaw : JStr), titleOk stRaw = true → (∀ f ∈ fs, fileOk f = true) →
    p.title = stRaw → (∀ s ∈ acc, s.title ≠ stRaw) →
    rebuildGo (acc ++ [p]) (fs.map (fun f => (sanPath stRaw f, f.content)))
      = Except.ok (acc ++ [{ p with files := p.files ++ fs.map expFile }])
  | [], acc, p, stRaw, _, _, _, _ => by simp [rebuildGo]
  | f :: fs', acc, p, stRaw, hst, hfs, hp, hacc => by
    simp only [List.map_cons, rebuildGo]
    rw [rebuildStep_clean (acc ++ [p]) stRaw f hst (hfs f (List.mem_cons_self _ _))]
    have hpush : pushGistFile (acc ++ [p]) stRaw ⟨uuid, f.title, f.type, f.content⟩
        = acc ++ [{ p with files := p.files ++ [expFile f] }] := by
      rw [← hp]
      exact pushGistFile_last acc p (expFile f) (fun s hs => hp ▸ hacc s hs)
    rw [hpush]
    show rebuildGo (acc ++ [{ p with files := p.files ++ [expFile f] }])
        (fs'.map (fun f => (sanPath stRaw f, f.content))) = _
    rw [rebuildGo_files fs' acc { p with files := p.files ++ [expFile f] } stRaw hst
      (fun x hx => hfs x (List.mem_cons_of_mem _ hx)) hp hacc]
    simp

theorem rebuildGo_subject (s : Subject) (acc : List Subject)
    (hst : titleOk s.title = true) (hne : s.files ≠ [])
    (hfs : ∀ f ∈ s.files, fileOk f = true)
    (hacc : ∀ a ∈ acc, a.title ≠ s.title) :
    rebuildGo acc (s.files.map (fun f => (sanPath s.title f, f.content)))
      = Except.ok (acc ++ [expSubject s]) := by
  cases hfiles : s.files with
  | nil => exact absurd hfiles hne
  | cons f fs =>
    simp only [List.map_cons, rebuildGo]
    rw [rebuildStep_clean acc s.title f hst
      (hfs f (by rw [hfiles]; exact List.mem_cons_self _ _))]
    rw [pushGistFile_new acc s.title _ hacc]
    show rebuildGo (acc ++ [⟨uuid, s.title, true, [expFile f]⟩])
        (fs.map (fun f => (sanPath s.title f, f.content))) = _
    rw [rebuildGo_files fs acc ⟨uuid, s.title, true, [expFile f]⟩ s.title hst
      (fun x hx => hfs x (by rw [hfiles]; exact List.mem_cons_of_mem _ hx)) rfl hacc]
    unfold expSubject
    rw [hfiles]
    simp [expFile]

/-! ## Serializer round-trip: assembling the whole pipeline -/

theorem flatten_clean : ∀ (W : List Subject),
    (∀ s ∈ W, titleOk s.title = true ∧ ∀ f ∈ s.files, fileOk f = true) →
    flattenWorkspace W
      = W.flatMap (fun s => s.files.map (fun f => (sanPath s.title f, f.content)))
  | [], _ => rfl
  | s :: rest, h => by
    obtain ⟨hst, hfs⟩ := h s (List.mem_cons_self _ _)
    unfold flattenWorkspace
    simp only [List.flatMap_cons]
    congr 1
    · apply List.map_congr_left
      intro f hf
      have hft := (fileOk_props (hfs f hf)).1
      rw [collapseWs_clean hst, collapseWs_clean hft]
      rfl
    · exact flatten_clean rest (fun x hx => h x (List.mem_cons_of_mem _ hx))

theorem rebuildGo_flatten : ∀ (W acc : List Subject),
    (∀ s ∈ W, titleOk s.title = true ∧ s.files ≠ [] ∧ ∀ f ∈ s.files, fileOk f = true) →
    (W.map (fun s => s.title)).Nodup →
    (∀ s ∈ W, ∀ a ∈ acc, a.title ≠ s.title) →
    rebuildGo acc (W.flatMap (fun s => s.files.map (fun f => (sanPath s.title f, f.content))))
      = Except.ok (acc ++ W.map expSubject)
  | [], acc, _, _, _ => by simp [rebuildGo]
  | s :: rest, acc, hgood, hnodup, hdisj => by
    simp only [List.flatMap_cons, List.map_cons]
    obtain ⟨hst, hne, hfs⟩ := hgood s (List.mem_cons_self _ _)
    have hblock := rebuildGo_subject s acc hst hne hfs
      (fun a ha => hdisj s (List.mem_cons_self _ _) a ha)
    rw [rebuildGo_append _ _ _ _ hblock]
    have hpair : (∀ x ∈ rest, ¬ x.title = s.title)
        ∧ (List.map (fun s => s.title) rest).Nodup := by simpa using hnodup
    rw [rebuildGo_flatten rest (acc ++ [expSubject s])
      (fun x hx => hgood x (List.mem_cons_of_mem _ hx)) hpair.2 ?_]
    · simp
    · intro s' hs' a ha
      rcases List.mem_append.mp ha with ha | ha
      · exact hdisj s' (List.mem_cons_of_mem _ hs') a ha
      · have : a = expSubject s := by simpa using ha
        subst this
        show s.title ≠ s'.title
        exact fun hcontra => hpair.1 s' hs' hcontra.symm

theorem toGistFiles_acc : ∀ (files acc : List (JStr × JStr)),
    ((acc ++ files).map Prod.fst).Nodup →
    files.foldl (fun m f => jsObjInsert m f.1 f.2) acc = acc ++ files
  | [], acc, _ => by simp
  | f :: rest, acc, h => by
    have hnodup2 : (acc.map Prod.fst ++ f.1 :: rest.map Prod.fst).Nodup := by
      simpa using h
    obtain ⟨_, _, hdisj⟩ := List.nodup_append.mp hnodup2
    have hins : jsObjInsert acc f.1 f.2 = acc ++ [f] := by
      unfold jsObjInsert
      rw [if_neg]
      simp only [List.any_eq_true, beq_iff_eq, not_exists, not_and]
      intro p hp hcontra
      exact hdisj (hcontra ▸ List.mem_map_of_mem Prod.fst hp)
        (List.mem_cons_self _ _)
    simp only [List.foldl_cons, hins]
    rw [toGistFiles_acc rest (acc ++ [f]) (by simpa using h)]
    simp

theorem toGistFiles_nodup (files : List (JStr × JStr))
    (h : (files.map Prod.fst).Nodup) : toGistFiles files = files := by
  unfold toGistFiles
  have := toGistFiles_acc files [] (by simpa using h)
  simpa using this

theorem getLast_append_md (u : JStr) : (u ++ jstr ".md").getLast? = some 'd' := by
  rw [List.getLast?_append_of_ne_nil u (by decide)]
  decide

theorem getLast_append_puml (u : JStr) : (u ++ jstr ".puml").getLast? = some 'l' := by
  rw [List.getLast?_append_of_ne_nil u (by decide)]
  decide

/-- Two equal sanitized paths built from clean components come from the
same folder title and the same file title. -/
theorem sanPath_eq {st₁ st₂ : JStr} {f₁ f₂ : WFile}
    (h1 : titleOk st₁ = true) (h2 : titleOk st₂ = true)
    (hf₁ : fileOk f₁ = true) (hf₂ : fileOk f₂ = true)
    (h : sanPath st₁ f₁ = sanPath st₂ f₂) :
    st₁ = st₂ ∧ f₁.title = f₂.title := by
  have hs := congrArg splitSep h
  rw [splitSep_sanPath st₁ f₁ h1 hf₁, splitSep_sanPath st₂ f₂ h2 hf₂] at hs
  have hheads : sanTitle st₁ = sanTitle st₂ := by
    injection hs
  have htails : sanTitle f₁.title ++ extOf f₁.type
      = sanTitle f₂.title ++ extOf f₂.type := by
    injection hs with _ hs2
    injection hs2
  obtain ⟨hft₁, hty₁⟩ := fileOk_props hf₁
  obtain ⟨hft₂, hty₂⟩ := fileOk_props hf₂
  have hallS₁ := (titleOk_props h1).1
  have hallS₂ := (titleOk_props h2).1
  have hallF₁ := (titleOk_props hft₁).1
  have hallF₂ := (titleOk_props hft₂).1
  refine ⟨sanTitle_inj (fun c hc => (hallS₁ c hc).1) (fun c hc => (hallS₂ c hc).1) hheads, ?_⟩
  have hsf : sanTitle f₁.title = sanTitle f₂.title := by
    rcases hty₁ with e₁ | e₁ <;> rcases hty₂ with e₂ | e₂
    · rw [e₁, e₂, extOf_md] at htails
      exact List.append_cancel_right htails
    · rw [e₁, e₂, extOf_md, extOf_puml] at htails
      have hl := congrArg List.getLast? htails
      rw [getLast_append_md, getLast_append_puml] at hl
      simp at hl
    · rw [e₁, e₂, extOf_puml, extOf_md] at htails
      have hl := congrArg List.getLast? htails
      rw [getLast_append_md, getLast_append_puml] at hl
      simp at hl
    · rw [e₁, e₂, extOf_puml] at htails
      exact List.append_cancel_right htails
  exact sanTitle_inj (fun c hc => (hallF₁ c hc).1) (fun c hc => (hallF₂ c hc).1) hsf

theorem paths_nodup : ∀ (W : List Subject),
    (∀ s ∈ W, titleOk s.title = true ∧ (∀ f ∈ s.files, fileOk f = true) ∧
      (s.files.map (fun f => f.title)).Nodup) →
    (W.map (fun s => s.title)).Nodup →
    (W.flatMap (fun s => s.files.map (fun f => sanPath s.title f))).Nodup
  | [], _, _ => List.Pairwise.nil
  | s :: rest, hgood, hnodup => by
    simp only [List.flatMap_cons]
    obtain ⟨hst, hfs, hftnodup⟩ := hgood s (List.mem_cons_self _ _)
    have hpair : (∀ x ∈ rest, ¬ x.title = s.title)
        ∧ (List.map (fun s => s.title) rest).Nodup := by simpa using hnodup
    refine List.nodup_append.mpr ⟨?_, ?_, ?_⟩
    · refine List.Nodup.map_on ?_ (List.Nodup.of_map _ hftnodup)
      intro f₁ h₁ f₂ h₂ hp
      exact List.inj_on_of_nodup_map hftnodup h₁ h₂
        (sanPath_eq hst hst (hfs f₁ h₁) (hfs f₂ h₂) hp).2
    · exact paths_nodup rest (fun x hx => hgood x (List.mem_cons_of_mem _ hx)) hpair.2
    · intro x hx1 hx2
      rcases List.mem_map.mp hx1 with ⟨f, hf, rfl⟩
      rcases List.mem_flatMap.mp hx2 with ⟨s', hs', hx2'⟩
      rcases List.mem_map.mp hx2' with ⟨f', hf', heq⟩
      obtain ⟨hst', hfs', _⟩ := hgood s' (List.mem_cons_of_mem _ hs')
      have := (sanPath_eq hst hst' (hfs f hf) (hfs' f' hf') heq.symm).1
      exact hpair.1 s' hs' (this ▸ rfl)

/-- C4 amended: for a workspace of nonempty folders with clean, pairwise
distinct folder titles (no underscores, whitespace only as single
interior spaces, not all-digit), per-folder distinct clean file titles,
and canonical content-kind tags ("md"/"puml" rather than their aliases),
`rebuild(flatten(W))` succeeds and produces a workspace with the same
number of folders, and folder for folder the same title and the same
file titles, content-kind tags and content strings in the same order
(identifiers are fresh and the expand flag resets, as the claim
permits). -/
theorem C4_flatten_rebuild_round_trip (W : List Subject) (hgood : GoodWorkspace W) :
    ∃ R, roundTrip W = Except.ok R ∧ R.length = W.length ∧ shape R = shape W := by
  obtain ⟨hall, hnodup⟩ := hgood
  refine ⟨W.map expSubject, ?_, by simp, ?_⟩
  · unfold roundTrip rebuildWorkspaceFromGist
    rw [flatten_clean W (fun s hs => ⟨(hall s hs).1, (hall s hs).2.2.2.1⟩)]
    have hpn : ((W.flatMap
        (fun s => s.files.map (fun f => (sanPath s.title f, f.content)))).map
          Prod.fst).Nodup := by
      rw [List.map_flatMap]
      simp only [List.map_map]
      exact paths_nodup W
        (fun s hs => ⟨(hall s hs).1, (hall s hs).2.2.2.1, (hall s hs).2.2.2.2⟩) hnodup
    rw [toGistFiles_nodup _ hpn]
    have hrun := rebuildGo_flatten W []
      (fun s hs => ⟨(hall s hs).1, (hall s hs).2.2.1, (hall s hs).2.2.2.1⟩)
      hnodup (by simp)
    simpa using hrun
  · simp [shape, expSubject, expFile, List.map_map, Function.comp]

/-- Closed application of the C4 amendment to the section-8 scenario
workspace. -/
theorem C4_flatten_rebuild_round_trip_witness :
    ∃ R, roundTrip [subjWork] = Except.ok R ∧ R.length = 1 ∧ shape R = shape [subjWork] :=
  C4_flatten_rebuild_round_trip [subjWork] (by unfold GoodWorkspace; decide)

/-! ## The codepoint comparator is a linear order -/

theorem charCmp_neg_iff (a b : Char) : charCmp a b < 0 ↔ a.toNat < b.toNat := by
  unfold charCmp
  split_ifs with h1 h2
  · simpa using h1
  · simp only [not_lt] at h1
    constructor
    · intro h; omega
    · intro h; omega
  · simp only [not_lt] at h1 h2
    constructor
    · intro h; omega
    · intro h; omega

theorem charCmp_nonneg_iff (a b : Char) : 0 ≤ charCmp a b ↔ b.toNat ≤ a.toNat := by
  unfold charCmp
  split_ifs with h1 h2
  · constructor
    · intro h; omega
    · intro h; omega
  · constructor
    · intro _; omega
    · intro _; omega
  · simp only [not_lt] at h1 h2
    constructor
    · intro _; omega
    · intro _; omega

theorem char_toNat_inj {a b : Char} (h : a.toNat = b.toNat) : a = b := by
  have h2 := congrArg Char.ofNat h
  rwa [Char.ofNat_toNat, Char.ofNat_toNat] at h2

theorem jstrCmp_nil_right_nonneg (c : JStr) : 0 ≤ jstrCmp c [] := by
  cases c <;> simp [jstrCmp]

theorem jstrCmp_asym : ∀ a b : JStr, jstrCmp a b < 0 → ¬ jstrCmp b a < 0
  | [], [], h => by simp [jstrCmp] at h
  | [], _ :: _, _ => by simp [jstrCmp]
  | _ :: _, [], h => by simp [jstrCmp] at h
  | a :: as, b :: bs, h => by
    simp only [jstrCmp] at h ⊢
    by_cases hab : a = b
    · subst hab
      rw [if_pos rfl] at h ⊢
      exact jstrCmp_asym as bs h
    · rw [if_neg hab] at h
      rw [if_neg (fun hh => hab hh.symm)]
      rw [charCmp_neg_iff] at h
      rw [not_lt, charCmp_nonneg_iff]
      omega

theorem jstrCmp_nonneg_trans : ∀ a b c : JStr,
    0 ≤ jstrCmp b a → 0 ≤ jstrCmp c b → 0 ≤ jstrCmp c a
  | [], _, c, _, _ => jstrCmp_nil_right_nonneg c
  | _ :: _, [], _, h1, _ => by simp [jstrCmp] at h1
  | _ :: _, _ :: _, [], _, h2 => by simp [jstrCmp] at h2
  | x :: as, y :: bs, z :: cs, h1, h2 => by
    simp only [jstrCmp] at h1 h2 ⊢
    by_cases hyx : y = x
    · subst hyx
      rw [if_pos rfl] at h1
      by_cases hzy : z = y
      · subst hzy
        rw [if_pos rfl] at h2 ⊢
        exact jstrCmp_nonneg_trans as bs cs h1 h2
      · rw [if_neg hzy] at h2 ⊢
        exact h2
    · rw [if_neg hyx] at h1
      by_cases hzy : z = y
      · subst hzy
        rw [if_neg hyx]
        exact h1
      · rw [if_neg hzy] at h2
        rw [charCmp_nonneg_iff] at h1 h2
        by_cases hzx : z = x
        · exfalso
          subst hzx
          exact hyx (char_toNat_inj (by omega))
        · rw [if_neg hzx, charCmp_nonneg_iff]
          omega

theorem jstrCmp_not_lt_trans (x y z : JStr) (h1 : ¬ jstrCmp y x < 0)
    (h2 : ¬ jstrCmp z y < 0) : ¬ jstrCmp z x < 0 := by
  rw [not_lt] at h1 h2 ⊢
  exact jstrCmp_nonneg_trans x y z h1 h2

/-- C5 amended: the source sorts the entries with the host collator
(`localeCompare`), not a byte/codepoint ordering; for any collator `cmp`
that is asymmetric and transitive, and any map whose entries are not tied
by the collator (no two distinct entries whose paths compare equal —
satisfied whenever paths are distinct and the collator never ties
distinct paths), the digest is independent of the entry order. -/
theorem C5_hash_order_independence (cmp : JStr → JStr → Int)
    (M M' : List (JStr × JStr)) (hp : List.Perm M M')
    (hasym : ∀ a b : JStr, cmp a b < 0 → ¬ cmp b a < 0)
    (htrans : ∀ x y z : JStr, ¬ cmp y x < 0 → ¬ cmp z y < 0 → ¬ cmp z x < 0)
    (hanti : ∀ p ∈ M, ∀ q ∈ M, ¬ cmp q.1 p.1 < 0 → ¬ cmp p.1 q.1 < 0 → p = q) :
    hashGistContent cmp M = hashGistContent cmp M' := by
  unfold hashGistContent
  have hs : stableSort (fun a b => decide (cmp a.1 b.1 < 0)) M
      = stableSort (fun a b => decide (cmp a.1 b.1 < 0)) M' := by
    apply stableSort_eq_of_perm _ ?_ ?_ M M' hp ?_
    · intro a b hab
      rw [decide_eq_false_iff_not]
      exact hasym _ _ (of_decide_eq_true hab)
    · intro a b c h1 h2
      rw [decide_eq_false_iff_not] at h1 h2 ⊢
      exact htrans _ _ _ h1 h2
    · intro a ha b hb h1 h2
      rw [decide_eq_false_iff_not] at h1 h2
      exact hanti a ha b hb h1 h2
  rw [hs]

/-- Closed application of the C5 amendment: under the codepoint
comparator (tie-free on distinct paths) the two orders of a concrete
two-entry map hash identically. -/
theorem C5_hash_order_independence_witness :
    hashGistContent jstrCmp [(jstr "a", jstr "1"), (jstr "b", jstr "2")]
      = hashGistContent jstrCmp [(jstr "b", jstr "2"), (jstr "a", jstr "1")] :=
  C5_hash_order_independence jstrCmp _ _
    (List.Perm.swap (jstr "b", jstr "2") (jstr "a", jstr "1") [])
    jstrCmp_asym jstrCmp_not_lt_trans (by decide)
